import Mathlib

/-!
Formal model of the MRS3D streaming point-cloud-to-mesh pipeline.

This file gives a shallow embedding, over exact rational arithmetic, of the
components of the repository that the verified properties speak about:

* the bitmap-point storage and its memory/age eviction policy
  (`UBitmapPointStorage`, `UBitmapPointMemoryManager`);
* the point-ingestion facade (`UMRBitmapMapper`, componentized version);
* the tracking-state machine (`UMRTrackingStateManager`);
* the fan triangulation (`FMeshGenerationTask::GenerateTriangulatedMesh`,
  `UProceduralGenerator::GenerateMesh`);
* the asynchronous mesh-generation manager (`UMeshGenerationManager`) and the
  per-job lifecycle (`FMeshGenerationTask::Run`);
* the marching-cubes cube classification (`FMarchingCubesGenerator`) with the
  exact lookup tables found in the source (including the truncated,
  zero-filled triangle table);
* the uniform-grid spatial index and its bounded-heap k-nearest-neighbour
  query (`UBitmapPointSpatialIndex::FindKNearestPoints`).

Engine floats are modelled as rationals; timestamps and clocks are explicit
parameters.  Multicast delegate broadcasts are modelled as event counters.
-/

/-- Rational stand-in for the engine 3D float vector. -/
structure Vec3 where
  x : ℚ
  y : ℚ
  z : ℚ
  deriving DecidableEq, Inhabited

/-- Componentwise addition, mirroring vector addition on positions. -/
def Vec3.add (a b : Vec3) : Vec3 := ⟨a.x + b.x, a.y + b.y, a.z + b.z⟩

/-- Componentwise subtraction. -/
def Vec3.sub (a b : Vec3) : Vec3 := ⟨a.x - b.x, a.y - b.y, a.z - b.z⟩

/-- Scalar multiple of a vector. -/
def Vec3.smul (c : ℚ) (a : Vec3) : Vec3 := ⟨c * a.x, c * a.y, c * a.z⟩

/-- Squared Euclidean distance, as computed by `FVector::DistSquared`. -/
def distSquared (a b : Vec3) : ℚ :=
  (a.x - b.x) ^ 2 + (a.y - b.y) ^ 2 + (a.z - b.z) ^ 2

/-- Rational stand-in for the engine color value carried by a point. -/
structure ColorV where
  r : ℚ
  g : ℚ
  b : ℚ
  a : ℚ
  deriving DecidableEq, Inhabited

/-- Model of `FBitmapPoint`: position, color, intensity, capture timestamp and
normal (`BitmapPoint.h`). -/
structure FBitmapPoint where
  position : Vec3
  color : ColorV
  intensity : ℚ
  timestamp : ℚ
  normal : Vec3
  deriving DecidableEq, Inhabited

/-! ## Bitmap point storage (`UBitmapPointStorage`)

The storage keeps an insertion-ordered array of points and fires one
`OnBitmapPointsChanged` broadcast per mutating call (modelled by the
`notifications` counter). -/

/-- State of a `UBitmapPointStorage`: the point array plus the number of
points-changed broadcasts fired so far. -/
structure StorageState where
  points : List FBitmapPoint
  notifications : Nat
  deriving DecidableEq, Inhabited

/-- Model of `UBitmapPointStorage::NotifyPointsChanged`: one broadcast. -/
def notifyPointsChanged (s : StorageState) : StorageState :=
  { s with notifications := s.notifications + 1 }

/-- Model of `UBitmapPointStorage::AddPoint`. -/
def storageAddPoint (p : FBitmapPoint) (s : StorageState) : StorageState :=
  notifyPointsChanged { s with points := s.points ++ [p] }

/-- Model of `UBitmapPointStorage::AddPoints`: appends the batch and fires a
single aggregated notification; an empty batch is a no-op. -/
def storageAddPoints (ps : List FBitmapPoint) (s : StorageState) : StorageState :=
  if ps.length = 0 then s
  else notifyPointsChanged { s with points := s.points ++ ps }

/-- Model of `UBitmapPointStorage::RemovePoint(Index)`: removes the point at
the given index when valid, firing one notification, and reports success.
The engine index is an `int32` checked for `0 ≤ Index < Num`; the model uses a
natural number so only the upper bound remains. -/
def storageRemovePoint (idx : Nat) (s : StorageState) : StorageState × Bool :=
  if idx < s.points.length then
    (notifyPointsChanged { s with points := s.points.eraseIdx idx }, true)
  else (s, false)

/-- Model of `UBitmapPointStorage::RemovePointsWhere`: removes every point
satisfying the predicate, firing a single notification when at least one point
was removed, and returns the removed count. -/
def storageRemovePointsWhere (pred : FBitmapPoint → Bool) (s : StorageState) :
    StorageState × Nat :=
  let remaining := s.points.filter (fun p => !pred p)
  let removed := s.points.length - remaining.length
  (if removed > 0 then notifyPointsChanged { s with points := remaining }
   else { s with points := remaining }, removed)

/-! ## Memory manager (`UBitmapPointMemoryManager`)

`PerformCleanupInternal` first drops points older than the configured maximum
age (`RemoveOldPoints`), then drops front-of-array points until the count is
within the configured maximum (`RemoveExcessPoints`, FIFO strategy).
`MaxBitmapPoints` is an `int32`, modelled as an integer. -/

/-- Model of `UBitmapPointMemoryManager::RemoveOldPoints`: when the maximum
age is positive, removes all points with `Timestamp < now - MaxPointAgeSeconds`
through `RemovePointsWhere`. -/
def removeOldPoints (maxAgeSeconds now : ℚ) (s : StorageState) :
    StorageState × Nat :=
  if maxAgeSeconds ≤ 0 then (s, 0)
  else storageRemovePointsWhere
    (fun p => decide (p.timestamp < now - maxAgeSeconds)) s

/-- Inner loop of `RemoveExcessPoints`: performs `RemovePoint(0)` the given
number of times while the storage is non-empty, counting successful removals. -/
def removeExcessLoop : Nat → StorageState → StorageState × Nat
  | 0, s => (s, 0)
  | Nat.succ n, s =>
    if s.points.length > 0 then
      let r := storageRemovePoint 0 s
      let res := removeExcessLoop n r.1
      (res.1, res.2 + (if r.2 then 1 else 0))
    else (s, 0)

/-- Model of `UBitmapPointMemoryManager::RemoveExcessPoints`: when the point
count exceeds a positive `MaxBitmapPoints`, repeatedly removes the first
(oldest-inserted) point until the excess is gone. -/
def removeExcessPoints (maxBitmapPoints : ℤ) (s : StorageState) :
    StorageState × Nat :=
  if maxBitmapPoints ≤ 0 then (s, 0)
  else if (s.points.length : ℤ) ≤ maxBitmapPoints then (s, 0)
  else removeExcessLoop ((s.points.length : ℤ) - maxBitmapPoints).toNat s

/-- Model of `UBitmapPointMemoryManager::PerformCleanupInternal`: age-based
removal followed by excess removal; returns the total removed count.  The
statistics, shrink call and `OnMemoryCleanup` broadcast do not affect the
stored points. -/
def performCleanupInternal (maxBitmapPoints : ℤ) (maxAgeSeconds now : ℚ)
    (s : StorageState) : StorageState × Nat :=
  let old := removeOldPoints maxAgeSeconds now s
  let excess := removeExcessPoints maxBitmapPoints old.1
  (excess.1, old.2 + excess.2)

/-! ## Point-ingestion facade (`UMRBitmapMapper`, componentized version)

`AddBitmapPoint`/`AddBitmapPoints` return immediately when real-time updates
are disabled; otherwise they forward to the storage (whose change broadcast
re-broadcasts `OnBitmapPointsUpdated`) and to the spatial index. -/

/-- State of the mapper facade: owned storage, the spatial index content with
its update-broadcast counter, the real-time flag, the auto-plane-detection
flag, and the `OnBitmapPointsUpdated` broadcast counter. -/
structure MapperState where
  storage : StorageState
  indexPoints : List FBitmapPoint
  indexNotifications : Nat
  realTimeUpdatesEnabled : Bool
  autoPlaneDetectionEnabled : Bool
  updateBroadcasts : Nat
  deriving DecidableEq, Inhabited

/-- Model of `UMRBitmapMapper::BroadcastUpdate`: fires `OnBitmapPointsUpdated`
only while real-time updates are enabled. -/
def mapperBroadcastUpdate (m : MapperState) : MapperState :=
  if m.realTimeUpdatesEnabled then
    { m with updateBroadcasts := m.updateBroadcasts + 1 }
  else m

/-- Model of `UBitmapPointSpatialIndex::AddPoint` as seen from the mapper:
the point joins the index content and one `OnSpatialIndexUpdated` fires. -/
def mapperIndexAddPoint (p : FBitmapPoint) (m : MapperState) : MapperState :=
  { m with indexPoints := m.indexPoints ++ [p],
           indexNotifications := m.indexNotifications + 1 }

/-- Model of `UBitmapPointSpatialIndex::AddPoints` as seen from the mapper:
the batch joins the index content and one `OnSpatialIndexUpdated` fires. -/
def mapperIndexAddPoints (ps : List FBitmapPoint) (m : MapperState) : MapperState :=
  { m with indexPoints := m.indexPoints ++ ps,
           indexNotifications := m.indexNotifications + 1 }

/-- Model of `UMRBitmapMapper::AddBitmapPoint`: returns unchanged when
real-time updates are disabled; otherwise adds to storage (whose notification
triggers `BroadcastUpdate`) and to the spatial index.  Auto plane detection
only reads the stored points. -/
def addBitmapPoint (p : FBitmapPoint) (m : MapperState) : MapperState :=
  if !m.realTimeUpdatesEnabled then m
  else
    let m1 := { m with storage := storageAddPoint p m.storage }
    let m2 := mapperBroadcastUpdate m1
    mapperIndexAddPoint p m2

/-- Model of `UMRBitmapMapper::AddBitmapPoints`: returns unchanged when
real-time updates are disabled or the batch is empty; otherwise adds the batch
to storage and to the spatial index. -/
def addBitmapPoints (ps : List FBitmapPoint) (m : MapperState) : MapperState :=
  if !m.realTimeUpdatesEnabled || ps.length = 0 then m
  else
    let m1 := { m with storage := storageAddPoints ps m.storage }
    let m2 := mapperBroadcastUpdate m1
    mapperIndexAddPoints ps m2

/-- Model of `UMRBitmapMapper::SetRealTimeUpdates`. -/
def setRealTimeUpdates (b : Bool) (m : MapperState) : MapperState :=
  { m with realTimeUpdatesEnabled := b }

/-! ## Tracking state machine (`UMRTrackingStateManager`) -/

/-- Model of `ETrackingState`. -/
inductive ETrackingState
  | notTracking
  | limitedTracking
  | fullTracking
  | trackingLost
  deriving DecidableEq, Inhabited

/-- Model of `EMRTrackingQuality`. -/
inductive EMRTrackingQuality
  | none
  | limited
  | normal
  | excellent
  deriving DecidableEq, Inhabited

/-- Quality thresholds held by the tracking manager. -/
structure QualityThresholds where
  excellentThreshold : ℚ
  normalThreshold : ℚ
  limitedThreshold : ℚ
  deriving DecidableEq, Inhabited

/-- Fields of `FMRSessionInfo` used by the model. -/
structure TrackingSessionInfo where
  trackingState : ETrackingState
  trackingQuality : EMRTrackingQuality
  trackingConfidence : ℚ
  trackingInterruptions : Nat
  deriving DecidableEq, Inhabited

/-- State of the tracking manager: session info, the bounded state history
(each entry state plus clamped confidence), broadcast counters for the four
delegates, and the confidence statistics. -/
structure TrackerState where
  sessionInfo : TrackingSessionInfo
  stateHistory : List (ETrackingState × ℚ)
  lostEvents : Nat
  recoveredEvents : Nat
  stateChangedEvents : Nat
  qualityChangedEvents : Nat
  totalConfidence : ℚ
  confidenceSamples : Nat
  deriving DecidableEq, Inhabited

/-- Model of `FMath::Clamp(Confidence, 0.0f, 1.0f)`. -/
def clamp01 (c : ℚ) : ℚ := max 0 (min c 1)

/-- Model of `UMRTrackingStateManager::CalculateTrackingQuality`. -/
def calculateTrackingQuality (th : QualityThresholds) (c : ℚ) :
    EMRTrackingQuality :=
  if c ≥ th.excellentThreshold then .excellent
  else if c ≥ th.normalThreshold then .normal
  else if c ≥ th.limitedThreshold then .limited
  else .none

/-- The two tracking-lost transitions recognized by `HandleStateTransition`. -/
def isLostTransition (old new : ETrackingState) : Bool :=
  (old = ETrackingState.fullTracking || old = ETrackingState.limitedTracking) &&
  (new = ETrackingState.trackingLost || new = ETrackingState.notTracking)

/-- The two tracking-recovered transitions recognized by
`HandleStateTransition`. -/
def isRecoveredTransition (old new : ETrackingState) : Bool :=
  (old = ETrackingState.trackingLost || old = ETrackingState.notTracking) &&
  (new = ETrackingState.fullTracking || new = ETrackingState.limitedTracking)

/-- Model of `UMRTrackingStateManager::HandleStateTransition`: on a lost
transition increments the interruption counter and fires `OnTrackingLost`; on
a recovered transition fires `OnTrackingRecovered`; always fires
`OnTrackingStateChanged`. -/
def handleStateTransition (old new : ETrackingState) (s : TrackerState) :
    TrackerState :=
  let s1 :=
    if isLostTransition old new then
      { s with
        sessionInfo := { s.sessionInfo with
          trackingInterruptions := s.sessionInfo.trackingInterruptions + 1 },
        lostEvents := s.lostEvents + 1 }
    else if isRecoveredTransition old new then
      { s with recoveredEvents := s.recoveredEvents + 1 }
    else s
  { s1 with stateChangedEvents := s1.stateChangedEvents + 1 }

/-- Model of `UMRTrackingStateManager::AddToHistory` with the bounded ring of
capacity 100 (`MaxHistorySize`). -/
def addToHistory (st : ETrackingState) (c : ℚ) (s : TrackerState) :
    TrackerState :=
  let h := s.stateHistory ++ [(st, c)]
  { s with stateHistory := if h.length > 100 then h.eraseIdx 0 else h }

/-- Model of `UMRTrackingStateManager::UpdateTrackingState`: updates the
session info, recomputes quality, appends to the history, handles the state
transition when the state changed, handles the quality change when the quality
changed, and accumulates confidence statistics. -/
def updateTrackingState (th : QualityThresholds) (new : ETrackingState)
    (confidence : ℚ) (s : TrackerState) : TrackerState :=
  let old := s.sessionInfo.trackingState
  let oldQ := s.sessionInfo.trackingQuality
  let c := clamp01 confidence
  let newQ := calculateTrackingQuality th c
  let s1 := { s with sessionInfo := { s.sessionInfo with
                trackingState := new, trackingConfidence := c,
                trackingQuality := newQ } }
  let s2 := addToHistory new c s1
  let s3 := if old ≠ new then handleStateTransition old new s2 else s2
  let s4 := if oldQ ≠ newQ then
              { s3 with qualityChangedEvents := s3.qualityChangedEvents + 1 }
            else s3
  { s4 with totalConfidence := s4.totalConfidence + c,
            confidenceSamples := s4.confidenceSamples + 1 }

/-! ## Fan triangulation (`GenerateTriangulatedMesh`, `GenerateMesh`)

Both the worker task and the synchronous generator build the same fan:
for `i` from `1` to `n - 2` they append the index triple `(0, i, i + 1)`. -/

/-- The fan-triangulation index loop shared by
`FMeshGenerationTask::GenerateTriangulatedMesh` and
`UProceduralGenerator::GenerateMesh`. -/
def fanLoop (n : Nat) : List Nat :=
  (List.range' 1 (n - 2)).flatMap (fun i => [0, i, i + 1])

/-- Model of `FMeshGenerationTask::GenerateTriangulatedMesh`: fails on fewer
than 3 points, otherwise emits one vertex per point and the fan index list. -/
def generateTriangulatedMesh (pts : List FBitmapPoint) :
    Bool × List Vec3 × List Nat :=
  if pts.length < 3 then (false, [], [])
  else (true, pts.map (fun p => p.position), fanLoop pts.length)

/-- Model of `UProceduralGenerator::GenerateMesh`: clears the section and
returns without triangles on fewer than 3 points, otherwise builds the same
fan index list. -/
def generateMeshSection (pts : List FBitmapPoint) : List Vec3 × List Nat :=
  if pts.length < 3 then ([], [])
  else (pts.map (fun p => p.position), fanLoop pts.length)

/-! ## Asynchronous mesh generation (`UMeshGenerationManager`,
`FMeshGenerationTask`) -/

/-- Model of `EMeshGenerationTaskStatus`. -/
inductive TaskStatus
  | pending
  | running
  | completed
  | failed
  | cancelled
  deriving DecidableEq, Inhabited

/-- Whether a status is terminal. -/
def TaskStatus.isTerminal : TaskStatus → Bool
  | .completed => true
  | .failed => true
  | .cancelled => true
  | _ => false

/-- One registry entry of the manager: the job id and the task status that
`CanStartNewJob` inspects through `Task->GetStatus()`. -/
structure JobEntry where
  id : ℤ
  taskStatus : TaskStatus
  deriving DecidableEq, Inhabited

/-- Manager state relevant to submission: the active-jobs registry and the
value of the `NextJobID` atomic counter. -/
structure ManagerState where
  activeJobs : List JobEntry
  nextJobID : ℤ
  deriving DecidableEq, Inhabited

/-- Count of registry entries whose task status is `Running`, as computed by
the loop in `CanStartNewJob` (and `GetActiveThreadCount`). -/
def runningJobCount (s : ManagerState) : Nat :=
  (s.activeJobs.filter (fun j => j.taskStatus = TaskStatus.running)).length

/-- Model of `UMeshGenerationManager::CanStartNewJob`. -/
def canStartNewJob (maxWorkerThreads maxQueuedJobs : ℤ) (s : ManagerState) :
    Bool :=
  decide ((runningJobCount s : ℤ) < maxWorkerThreads) &&
  decide ((s.activeJobs.length : ℤ) < maxQueuedJobs)

/-- Model of `UMeshGenerationManager::GenerateJobID`:
`FThreadSafeCounter::Increment` returns the incremented value. -/
def generateJobID (s : ManagerState) : ℤ × ManagerState :=
  (s.nextJobID + 1, { s with nextJobID := s.nextJobID + 1 })

/-- Model of `UMeshGenerationManager::SubmitMeshGenerationJob`.  Inputs beyond
the state: the size of the input point array and whether
`FRunnableThread::Create` succeeds.  Returns the result (`-1` on rejection,
the fresh job id otherwise) and the successor state.  Note that the id counter
is already advanced when thread creation fails, but no job is registered. -/
def submitMeshGenerationJob (maxWorkerThreads maxQueuedJobs : ℤ)
    (numPoints : Nat) (threadOk : Bool) (s : ManagerState) : ℤ × ManagerState :=
  if !canStartNewJob maxWorkerThreads maxQueuedJobs s then (-1, s)
  else if numPoints = 0 then (-1, s)
  else
    let idAndState := generateJobID s
    if !threadOk then (-1, idAndState.2)
    else (idAndState.1,
      { idAndState.2 with
        activeJobs := idAndState.2.activeJobs ++
          [{ id := idAndState.1, taskStatus := TaskStatus.pending }] })

/-! ### Lifecycle of a single job

The manager-recorded status (`Job->Info.Status`) and the task status evolve
through `FMeshGenerationTask::Init`/`Run`, `UMeshGenerationManager::CancelJob`
and `UMeshGenerationManager::OnJobCompleted`.  The model tracks one job. -/

/-- Lifecycle state of a single submitted job: the manager-recorded info
status, the task status, the cooperative cancellation flag, whether the job is
still in the `ActiveJobs` registry, and whether the worker has finished. -/
structure JobLifeState where
  infoStatus : TaskStatus
  taskStatus : TaskStatus
  cancelFlag : Bool
  inActive : Bool
  finished : Bool
  deriving DecidableEq, Inhabited

/-- Job state right after a successful submission. -/
def jobSubmitted : JobLifeState :=
  { infoStatus := .pending, taskStatus := .pending, cancelFlag := false,
    inActive := true, finished := false }

/-- Events that can touch a job after submission.  `finishRun genSuccess early`
is the worker finishing `Run`: `early` marks the pre-work cancellation
checkpoint (status set, no completion callback), otherwise `genSuccess` is the
raw generator outcome (`bSuccess`); `getJobInfo` is a status query through
`UMeshGenerationManager::GetJobInfo`. -/
inductive JobEvent
  | taskInit
  | cancelJob
  | finishRun (genSuccess : Bool) (early : Bool)
  | getJobInfo
  deriving DecidableEq, Inhabited

/-- One step of the job lifecycle.

* `taskInit` models `FMeshGenerationTask::Init` setting the task `Running`.
* `cancelJob` models `UMeshGenerationManager::CancelJob`: when the job is
  still registered, the cancel flag is raised and the recorded status becomes
  `Cancelled` (the job stays in `ActiveJobs`).
* `finishRun` models the end of `FMeshGenerationTask::Run`: with the cancel
  flag raised at the pre-work checkpoint the task stops `Cancelled` without
  invoking the completion callback; otherwise the task status becomes
  `Completed` only for a successful, uncancelled run (`bSuccess` and not
  `ShouldCancel`), `Cancelled` when the flag is raised, `Failed` otherwise,
  and the completion callback fires with the raw generator flag `bSuccess`:
  `OnJobCompleted` finds the job in `ActiveJobs`, records `Completed` or
  `Failed` according to that raw flag, and moves the job to `CompletedJobs`.
* `getJobInfo` models `UMeshGenerationManager::GetJobInfo`, which finds the
  job in `ActiveJobs` or `CompletedJobs` and rewrites the recorded status
  from the task status (`Job->Info.Status = Job->Task->GetStatus()`) on every
  query; in the modelled window (before any `CleanupCompletedJobs`) the job
  is always found. -/
def jobStep (e : JobEvent) (s : JobLifeState) : JobLifeState :=
  match e with
  | .taskInit =>
    if s.taskStatus = TaskStatus.pending && !s.finished then
      { s with taskStatus := .running }
    else s
  | .cancelJob =>
    if s.inActive then { s with cancelFlag := true, infoStatus := .cancelled }
    else s
  | .finishRun genSuccess early =>
    if s.taskStatus = TaskStatus.running && !s.finished then
      if s.cancelFlag && early then
        { s with taskStatus := .cancelled, finished := true }
      else
        if s.inActive then
          { s with
            taskStatus := if genSuccess && !s.cancelFlag then .completed
              else if s.cancelFlag then .cancelled else .failed,
            finished := true, inActive := false,
            infoStatus := if genSuccess then .completed else .failed }
        else
          { s with
            taskStatus := if genSuccess && !s.cancelFlag then .completed
              else if s.cancelFlag then .cancelled else .failed,
            finished := true }
    else s
  | .getJobInfo => { s with infoStatus := s.taskStatus }

/-- Replay a list of events on a job state. -/
def jobRun (evs : List JobEvent) (s : JobLifeState) : JobLifeState :=
  evs.foldl (fun st e => jobStep e st) s

/-! ## Marching cubes (`FMarchingCubesGenerator`)

The lookup tables are transcribed exactly from the source.  The triangle
table initializer in the source holds only 33 of the 256 rows (the comment in
the source marks the remainder as truncated); C++ aggregate initialization
zero-fills the other 223 rows, which the model reproduces. -/

/-- Model of `FMarchingCubesGenerator::EdgeTable` (all 256 entries are
present in the source). -/
def edgeTable : List Nat := [
  0x0, 0x109, 0x203, 0x30a, 0x406, 0x50f, 0x605, 0x70c,
  0x80c, 0x905, 0xa0f, 0xb06, 0xc0a, 0xd03, 0xe09, 0xf00,
  0x190, 0x99, 0x393, 0x29a, 0x596, 0x49f, 0x795, 0x69c,
  0x99c, 0x895, 0xb9f, 0xa96, 0xd9a, 0xc93, 0xf99, 0xe90,
  0x230, 0x339, 0x33, 0x13a, 0x636, 0x73f, 0x435, 0x53c,
  0xa3c, 0xb35, 0x83f, 0x936, 0xe3a, 0xf33, 0xc39, 0xd30,
  0x3a0, 0x2a9, 0x1a3, 0xaa, 0x7a6, 0x6af, 0x5a5, 0x4ac,
  0xbac, 0xaa5, 0x9af, 0x8a6, 0xfaa, 0xea3, 0xda9, 0xca0,
  0x460, 0x569, 0x663, 0x76a, 0x66, 0x16f, 0x265, 0x36c,
  0xc6c, 0xd65, 0xe6f, 0xf66, 0x86a, 0x963, 0xa69, 0xb60,
  0x5f0, 0x4f9, 0x7f3, 0x6fa, 0x1f6, 0xff, 0x3f5, 0x2fc,
  0xdfc, 0xcf5, 0xfff, 0xef6, 0x9fa, 0x8f3, 0xbf9, 0xaf0,
  0x650, 0x759, 0x453, 0x55a, 0x256, 0x35f, 0x55, 0x15c,
  0xe5c, 0xf55, 0xc5f, 0xd56, 0xa5a, 0xb53, 0x859, 0x950,
  0x7c0, 0x6c9, 0x5c3, 0x4ca, 0x3c6, 0x2cf, 0x1c5, 0xcc,
  0xfcc, 0xec5, 0xdcf, 0xcc6, 0xbca, 0xac3, 0x9c9, 0x8c0,
  0x8c0, 0x9c9, 0xac3, 0xbca, 0xcc6, 0xdcf, 0xec5, 0xfcc,
  0xcc, 0x1c5, 0x2cf, 0x3c6, 0x4ca, 0x5c3, 0x6c9, 0x7c0,
  0x950, 0x859, 0xb53, 0xa5a, 0xd56, 0xc5f, 0xf55, 0xe5c,
  0x15c, 0x55, 0x35f, 0x256, 0x55a, 0x453, 0x759, 0x650,
  0xaf0, 0xbf9, 0x8f3, 0x9fa, 0xef6, 0xfff, 0xcf5, 0xdfc,
  0x2fc, 0x3f5, 0xff, 0x1f6, 0x6fa, 0x7f3, 0x4f9, 0x5f0,
  0xb60, 0xa69, 0x963, 0x86a, 0xf66, 0xe6f, 0xd65, 0xc6c,
  0x36c, 0x265, 0x16f, 0x66, 0x76a, 0x663, 0x569, 0x460,
  0xca0, 0xda9, 0xea3, 0xfaa, 0x8a6, 0x9af, 0xaa5, 0xbac,
  0x4ac, 0x5a5, 0x6af, 0x7a6, 0xaa, 0x1a3, 0x2a9, 0x3a0,
  0xd30, 0xc39, 0xf33, 0xe3a, 0x936, 0x83f, 0xb35, 0xa3c,
  0x53c, 0x435, 0x73f, 0x636, 0x13a, 0x33, 0x339, 0x230,
  0xe90, 0xf99, 0xc93, 0xd9a, 0xa96, 0xb9f, 0x895, 0x99c,
  0x69c, 0x795, 0x49f, 0x596, 0x29a, 0x393, 0x99, 0x190,
  0xf00, 0xe09, 0xd03, 0xc0a, 0xb06, 0xa0f, 0x905, 0x80c,
  0x70c, 0x605, 0x50f, 0x406, 0x30a, 0x203, 0x109, 0x0
]

set_option maxHeartbeats 1000000 in
/-- The 33 triangle-table rows that the source initializer actually
contains (cube indices 0 through 32). -/
def triTableRows : List (List ℤ) := [
  [-1, -1, -1, -1, -1, -1, -1, -1, -1, -1, -1, -1, -1, -1, -1, -1],
  [0, 8, 3, -1, -1, -1, -1, -1, -1, -1, -1, -1, -1, -1, -1, -1],
  [0, 1, 9, -1, -1, -1, -1, -1, -1, -1, -1, -1, -1, -1, -1, -1],
  [1, 8, 3, 9, 8, 1, -1, -1, -1, -1, -1, -1, -1, -1, -1, -1],
  [1, 2, 10, -1, -1, -1, -1, -1, -1, -1, -1, -1, -1, -1, -1, -1],
  [0, 8, 3, 1, 2, 10, -1, -1, -1, -1, -1, -1, -1, -1, -1, -1],
  [9, 2, 10, 0, 2, 9, -1, -1, -1, -1, -1, -1, -1, -1, -1, -1],
  [2, 8, 3, 2, 10, 8, 10, 9, 8, -1, -1, -1, -1, -1, -1, -1],
  [3, 11, 2, -1, -1, -1, -1, -1, -1, -1, -1, -1, -1, -1, -1, -1],
  [0, 11, 2, 8, 11, 0, -1, -1, -1, -1, -1, -1, -1, -1, -1, -1],
  [1, 9, 0, 2, 3, 11, -1, -1, -1, -1, -1, -1, -1, -1, -1, -1],
  [1, 11, 2, 1, 9, 11, 9, 8, 11, -1, -1, -1, -1, -1, -1, -1],
  [3, 10, 1, 11, 10, 3, -1, -1, -1, -1, -1, -1, -1, -1, -1, -1],
  [0, 10, 1, 0, 8, 10, 8, 11, 10, -1, -1, -1, -1, -1, -1, -1],
  [3, 9, 0, 3, 11, 9, 11, 10, 9, -1, -1, -1, -1, -1, -1, -1],
  [9, 8, 10, 10, 8, 11, -1, -1, -1, -1, -1, -1, -1, -1, -1, -1],
  [4, 7, 8, -1, -1, -1, -1, -1, -1, -1, -1, -1, -1, -1, -1, -1],
  [4, 3, 0, 7, 3, 4, -1, -1, -1, -1, -1, -1, -1, -1, -1, -1],
  [0, 1, 9, 8, 4, 7, -1, -1, -1, -1, -1, -1, -1, -1, -1, -1],
  [4, 1, 9, 4, 7, 1, 7, 3, 1, -1, -1, -1, -1, -1, -1, -1],
  [1, 2, 10, 8, 4, 7, -1, -1, -1, -1, -1, -1, -1, -1, -1, -1],
  [3, 4, 7, 3, 0, 4, 1, 2, 10, -1, -1, -1, -1, -1, -1, -1],
  [9, 2, 10, 9, 0, 2, 8, 4, 7, -1, -1, -1, -1, -1, -1, -1],
  [2, 10, 9, 2, 9, 7, 2, 7, 3, 7, 9, 4, -1, -1, -1, -1],
  [8, 4, 7, 3, 11, 2, -1, -1, -1, -1, -1, -1, -1, -1, -1, -1],
  [11, 4, 7, 11, 2, 4, 2, 0, 4, -1, -1, -1, -1, -1, -1, -1],
  [9, 0, 1, 8, 4, 7, 2, 3, 11, -1, -1, -1, -1, -1, -1, -1],
  [4, 7, 11, 9, 4, 11, 9, 11, 2, 9, 2, 1, -1, -1, -1, -1],
  [3, 10, 1, 3, 11, 10, 7, 8, 4, -1, -1, -1, -1, -1, -1, -1],
  [1, 11, 10, 1, 4, 11, 1, 0, 4, 7, 11, 4, -1, -1, -1, -1],
  [4, 7, 8, 9, 0, 11, 9, 11, 10, 11, 0, 3, -1, -1, -1, -1],
  [4, 7, 11, 4, 11, 9, 9, 11, 10, -1, -1, -1, -1, -1, -1, -1],
  [-1, -1, -1, -1, -1, -1, -1, -1, -1, -1, -1, -1, -1, -1, -1, -1]
]

/-- Model of `FMarchingCubesGenerator::TriTable`: the 33 source rows followed
by 223 zero-filled rows produced by C++ aggregate initialization. -/
def triTable : List (List ℤ) :=
  triTableRows ++ List.replicate 223 (List.replicate 16 0)

/-- Model of `FVoxel`: scalar density value, position and color. -/
structure FVoxel where
  value : ℚ
  position : Vec3
  color : ColorV
  deriving DecidableEq, Inhabited

/-- The epsilon `0.00001f` used by the interpolation guards. -/
def mcEps : ℚ := 1 / 100000

/-- Model of `FMarchingCubesGenerator::InterpolateVertex` with its three
near-equality guards. -/
def interpolateVertex (v1 v2 : FVoxel) (isoValue : ℚ) : Vec3 :=
  if |isoValue - v1.value| < mcEps then v1.position
  else if |isoValue - v2.value| < mcEps then v2.position
  else if |v1.value - v2.value| < mcEps then v1.position
  else
    let mu := (isoValue - v1.value) / (v2.value - v1.value)
    Vec3.add v1.position (Vec3.smul mu (Vec3.sub v2.position v1.position))

/-- Linear interpolation of one color channel (`FMath::Lerp`); the narrowing
of the result to a byte channel is elided, channels stay rational. -/
def lerpQ (a b mu : ℚ) : ℚ := a + mu * (b - a)

/-- Model of `FMarchingCubesGenerator::InterpolateColor`. -/
def interpolateColor (v1 v2 : FVoxel) (isoValue : ℚ) : ColorV :=
  if |v1.value - v2.value| < mcEps then v1.color
  else
    let mu := (isoValue - v1.value) / (v2.value - v1.value)
    { r := lerpQ v1.color.r v2.color.r mu, g := lerpQ v1.color.g v2.color.g mu,
      b := lerpQ v1.color.b v2.color.b mu, a := lerpQ v1.color.a v2.color.a mu }

/-- The cube-classification index of `ProcessCube`: bit `i` is set exactly
when corner `i` has density strictly below the iso-value. -/
def cubeIndexOf (cube : Fin 8 → FVoxel) (isoValue : ℚ) : Nat :=
  (if (cube 0).value < isoValue then 1 else 0) +
  (if (cube 1).value < isoValue then 2 else 0) +
  (if (cube 2).value < isoValue then 4 else 0) +
  (if (cube 3).value < isoValue then 8 else 0) +
  (if (cube 4).value < isoValue then 16 else 0) +
  (if (cube 5).value < isoValue then 32 else 0) +
  (if (cube 6).value < isoValue then 64 else 0) +
  (if (cube 7).value < isoValue then 128 else 0)

/-- Corner pair interpolated for each of the 12 cube edges, following the
twelve `EdgeTable` bit tests of `ProcessCube`. -/
def edgeCorners : Fin 12 → Fin 8 × Fin 8
  | 0 => (0, 1)
  | 1 => (1, 2)
  | 2 => (2, 3)
  | 3 => (3, 0)
  | 4 => (4, 5)
  | 5 => (5, 6)
  | 6 => (6, 7)
  | 7 => (7, 4)
  | 8 => (0, 4)
  | 9 => (1, 5)
  | 10 => (2, 6)
  | 11 => (3, 7)

/-- Whether `ProcessCube` fills `VertList` entry `e` for cube index `ci`. -/
def edgeActive (ci : Nat) (e : Fin 12) : Bool :=
  (edgeTable.getD ci 0) &&& (2 ^ (e : Nat)) ≠ 0

/-- The `VertList` entry for edge `e`: interpolated when the edge is active,
otherwise left as uninitialized stack memory, modelled as the origin. -/
def vertListEntry (cube : Fin 8 → FVoxel) (isoValue : ℚ) (e : Fin 12) : Vec3 :=
  if edgeActive (cubeIndexOf cube isoValue) e then
    interpolateVertex (cube (edgeCorners e).1) (cube (edgeCorners e).2) isoValue
  else ⟨0, 0, 0⟩

/-- The `ColorList` entry for edge `e`, analogous to `vertListEntry`. -/
def colorListEntry (cube : Fin 8 → FVoxel) (isoValue : ℚ) (e : Fin 12) : ColorV :=
  if edgeActive (cubeIndexOf cube isoValue) e then
    interpolateColor (cube (edgeCorners e).1) (cube (edgeCorners e).2) isoValue
  else default

/-- Scan of one triangle-table row from position `3 * k`, mirroring the
emission loop `for (i = 0; TriTable[ci][i] != -1; i += 3)`.  The scan is well
defined only when a `-1` terminator occurs at a position in `0, 3, …, 15`;
otherwise the C++ loop reads past the end of the row and the model returns
`none`.  The first argument counts the scan positions still inside the row
(at most six in a 16-entry row), which makes the recursion structural. -/
def triScanSteps (row : List ℤ) : Nat → Nat → Option (List (ℤ × ℤ × ℤ))
  | 0, _ => none
  | Nat.succ fuel, k =>
    if 16 ≤ 3 * k then none
    else if row.getD (3 * k) 0 = -1 then some []
    else
      match triScanSteps row fuel (k + 1) with
      | none => none
      | some rest =>
        some ((row.getD (3 * k) 0, row.getD (3 * k + 1) 0,
               row.getD (3 * k + 2) 0) :: rest)

/-- The row scan started at position `3 * k`: six in-row positions suffice
for any start, since the position guard stops the scan at index 16. -/
def triScanFrom (row : List ℤ) (k : Nat) : Option (List (ℤ × ℤ × ℤ)) :=
  triScanSteps row 6 k

/-- Triangle emitted by `ProcessCube`: three vertices with their colors (the
flat normal and UVs are derived data not needed by the verified properties). -/
structure MCTriangle where
  v0 : Vec3
  v1 : Vec3
  v2 : Vec3
  c0 : ColorV
  c1 : ColorV
  c2 : ColorV
  deriving DecidableEq, Inhabited

/-- The `VertList` lookup performed with a triangle-table entry, which the
source trusts to be a valid edge index. -/
def edgeVert (cube : Fin 8 → FVoxel) (isoValue : ℚ) (e : ℤ) : Vec3 :=
  if h : 0 ≤ e ∧ e < 12 then
    vertListEntry cube isoValue ⟨e.toNat, by omega⟩
  else ⟨0, 0, 0⟩

/-- The `ColorList` lookup performed with a triangle-table entry. -/
def edgeColor (cube : Fin 8 → FVoxel) (isoValue : ℚ) (e : ℤ) : ColorV :=
  if h : 0 ≤ e ∧ e < 12 then
    colorListEntry cube isoValue ⟨e.toNat, by omega⟩
  else default

/-- Model of `FMarchingCubesGenerator::ProcessCube`: classify the corners,
return no triangles when the edge table is zero, otherwise interpolate the
active edges and emit the triangles listed by the (possibly ill-terminated)
triangle-table row. -/
def processCube (cube : Fin 8 → FVoxel) (isoValue : ℚ) :
    Option (List MCTriangle) :=
  if edgeTable.getD (cubeIndexOf cube isoValue) 0 = 0 then some []
  else
    match triScanFrom (triTable.getD (cubeIndexOf cube isoValue) []) 0 with
    | none => none
    | some triples =>
      some (triples.map (fun t =>
        { v0 := edgeVert cube isoValue t.1,
          v1 := edgeVert cube isoValue t.2.1,
          v2 := edgeVert cube isoValue t.2.2,
          c0 := edgeColor cube isoValue t.1,
          c1 := edgeColor cube isoValue t.2.1,
          c2 := edgeColor cube isoValue t.2.2 }))

/-! ## Spatial index (`UBitmapPointSpatialIndex`)

Positions are mapped to integer grid cells by flooring each coordinate
divided by the cell size.  `AddPoint` appends the point to its cell, so after
inserting a point list into an empty index the content of a cell is exactly
the sublist of points whose key is that cell, in insertion order. -/

/-- Model of `UBitmapPointSpatialIndex::WorldToGrid`. -/
def worldToGrid (cellSize : ℚ) (p : Vec3) : ℤ × ℤ × ℤ :=
  (⌊p.x / cellSize⌋, ⌊p.y / cellSize⌋, ⌊p.z / cellSize⌋)

/-- Model of `UBitmapPointSpatialIndex::GridToWorld`. -/
def gridToWorld (cellSize : ℚ) (g : ℤ × ℤ × ℤ) : Vec3 :=
  ⟨g.1 * cellSize, g.2.1 * cellSize, g.2.2 * cellSize⟩

/-- Content of grid cell `g` of an index holding the points `pts` (inserted in
list order into an initially empty index). -/
def cellPoints (pts : List FBitmapPoint) (cellSize : ℚ) (g : ℤ × ℤ × ℤ) :
    List FBitmapPoint :=
  pts.filter (fun p => decide (worldToGrid cellSize p.position = g))

/-- The consecutive integers from `lo` to `hi`, modelling the C++ loop
`for (v = lo; v <= hi; v++)`. -/
def intRange (lo hi : ℤ) : List ℤ :=
  (List.range (hi + 1 - lo).toNat).map (fun (k : ℕ) => lo + (k : ℤ))

/-- Center of a grid cell: `GridToWorld(GridPos) + FVector(CellSize * 0.5)`. -/
def cellCenter (cellSize : ℚ) (g : ℤ × ℤ × ℤ) : Vec3 :=
  Vec3.add (gridToWorld cellSize g) ⟨cellSize / 2, cellSize / 2, cellSize / 2⟩

/-- Decision of the sphere-cell intersection test of `GetCellsInSphere`,
`Dist(Center, CellCenter) ≤ Radius + CellSize * √3 / 2`, carried out in exact
rational arithmetic: for `0 ≤ Radius` and `0 ≤ CellSize` the real inequality
holds exactly when `DistSquared - Radius² - 3·CellSize²/4` is nonpositive or
its square is at most `3·(Radius·CellSize)²` (the proof is the lemma
`cellSphereTest_iff` below). -/
def cellSphereTest (center : Vec3) (radius cellSize : ℚ) (g : ℤ × ℤ × ℤ) :
    Bool :=
  let dsq := distSquared center (cellCenter cellSize g)
  let a := dsq - radius ^ 2 - 3 * cellSize ^ 2 / 4
  decide (a ≤ 0) || decide (a ^ 2 ≤ 3 * (radius * cellSize) ^ 2)

/-- Model of `UBitmapPointSpatialIndex::GetCellsInSphere`: enumerate all grid
offsets within `CellRadius = ⌈Radius / CellSize⌉` of the center cell and keep
those whose cell passes the sphere-intersection test. -/
def getCellsInSphere (center : Vec3) (radius cellSize : ℚ) :
    List (ℤ × ℤ × ℤ) :=
  let cg := worldToGrid cellSize center
  let m := ⌈radius / cellSize⌉
  (intRange (-m) m).flatMap (fun dx =>
    (intRange (-m) m).flatMap (fun dy =>
      (intRange (-m) m).filterMap (fun dz =>
        let g := (cg.1 + dx, cg.2.1 + dy, cg.2.2 + dz)
        if cellSphereTest center radius cellSize g then some g else none)))

/-! ### Bounded max-heap of k-nearest candidates

`FindKNearestPoints` keeps a `TArray` of `FPointDistance` organized as a
binary heap through `HeapifyUp` and `Heapify`, with the comparison predicate
inverted so that the root is the farthest candidate. -/

/-- Model of the local struct `FPointDistance`. -/
structure FPointDistance where
  point : FBitmapPoint
  distanceSquared : ℚ
  deriving DecidableEq, Inhabited

/-- The comparison operator of `FPointDistance`: `a < b` when `a` is farther
(max-heap ordering, farthest first). -/
def pdLess (a b : FPointDistance) : Bool :=
  decide (a.distanceSquared > b.distanceSquared)

/-- Exchange of the entries at two positions of the candidate array. -/
def heapSwap (l : List FPointDistance) (i j : Nat) : List FPointDistance :=
  (l.set i (l.getD j default)).set j (l.getD i default)

/-- Binary-heap sift-up at index `i` (`TArray::HeapifyUp`): while the entry
compares before its parent it is exchanged with the parent. -/
def heapifyUp (l : List FPointDistance) (i : Nat) : List FPointDistance :=
  if i = 0 then l
  else if pdLess (l.getD i default) (l.getD ((i - 1) / 2) default) then
    heapifyUp (heapSwap l ((i - 1) / 2) i) ((i - 1) / 2)
  else l
termination_by i
decreasing_by omega

/-- Child of `i` selected by a sift-down step: the right child when it exists
and compares before the left child, otherwise the left child. -/
def sdChild (l : List FPointDistance) (i : Nat) : Nat :=
  if 2 * i + 2 < l.length ∧
      pdLess (l.getD (2 * i + 2) default) (l.getD (2 * i + 1) default) = true
  then 2 * i + 2 else 2 * i + 1

/-- Binary-heap sift-down at index `i`: while some child compares before the
entry, exchange with the earliest-comparing child. -/
def siftDown (l : List FPointDistance) (i : Nat) : List FPointDistance :=
  if _h : 2 * i + 1 < l.length then
    if pdLess (l.getD (sdChild l i) default) (l.getD i default) then
      siftDown (heapSwap l i (sdChild l i)) (sdChild l i)
    else l
  else l
termination_by l.length - i
decreasing_by
  have hlen : (heapSwap l i (sdChild l i)).length = l.length := by
    simp [heapSwap]
  have hgt : i < sdChild l i := by
    unfold sdChild; split <;> omega
  have hlt : sdChild l i < l.length := by
    unfold sdChild; split <;> omega
  simp only [hlen]
  omega

/-- Floyd heap construction processing indices `i, i-1, …, 0`. -/
def heapifyFrom (l : List FPointDistance) : Nat → List FPointDistance
  | 0 => siftDown l 0
  | Nat.succ i => heapifyFrom (siftDown l (Nat.succ i)) i

/-- Model of `TArray::Heapify`: sift-down from the parent of the last entry
down to the root. -/
def heapify (l : List FPointDistance) : List FPointDistance :=
  if l.isEmpty then l else heapifyFrom l ((l.length - 2) / 2)

/-- One candidate-processing step of the `FindKNearestPoints` scan: a point
within the maximum distance is pushed when fewer than `K` candidates are held,
replaces the root (the farthest candidate) when strictly closer than it, and
is dropped otherwise. -/
def knnStep (k : ℤ) (maxDistanceSquared : ℚ) (location : Vec3)
    (heap : List FPointDistance) (p : FBitmapPoint) : List FPointDistance :=
  if distSquared p.position location ≤ maxDistanceSquared then
    if (heap.length : ℤ) < k then
      heapifyUp (heap ++ [⟨p, distSquared p.position location⟩]) heap.length
    else if distSquared p.position location <
        (heap.getD 0 default).distanceSquared then
      heapify (heap.set 0 ⟨p, distSquared p.position location⟩)
    else heap
  else heap

/-- Final sort of `FindKNearestPoints`, ascending by squared distance to the
query location.  The C++ `TArray::Sort` uses the strict comparator; the model
realizes the sort by a mergesort with the corresponding non-strict comparator,
which produces a permutation in nondecreasing distance order, exactly the
guarantee a comparison sort gives for a strict weak order. -/
def sortByDistance (location : Vec3) (l : List FBitmapPoint) :
    List FBitmapPoint :=
  l.mergeSort (fun a b =>
    decide (distSquared a.position location ≤ distSquared b.position location))

/-- Model of `UBitmapPointSpatialIndex::FindKNearestPoints` over an index
holding `pts`: empty for `K ≤ 0`; otherwise every point of every cell passing
the sphere test is scanned through the bounded heap, and the kept candidates
are extracted and sorted by distance. -/
def findKNearestPoints (pts : List FBitmapPoint) (cellSize : ℚ)
    (location : Vec3) (k : ℤ) (maxDistance : ℚ) : List FBitmapPoint :=
  if k ≤ 0 then []
  else
    let cells := getCellsInSphere location maxDistance cellSize
    let candidates := cells.flatMap (cellPoints pts cellSize)
    let heap := candidates.foldl
      (knnStep k (maxDistance * maxDistance) location) []
    sortByDistance location (heap.map (fun e => e.point))

/-! ## Example values used by concrete checks -/

/-- A point with a given timestamp at the origin. -/
def mkPt (ts : ℚ) : FBitmapPoint :=
  { position := ⟨0, 0, 0⟩, color := default, intensity := 1, timestamp := ts,
    normal := ⟨0, 0, 1⟩ }

/-- A point with a given position and timestamp zero. -/
def mkPtPos (v : Vec3) : FBitmapPoint :=
  { position := v, color := default, intensity := 1, timestamp := 0,
    normal := ⟨0, 0, 1⟩ }

/-- A three-point storage with increasing timestamps. -/
def exStorage3 : StorageState :=
  { points := [mkPt 1, mkPt 2, mkPt 3], notifications := 0 }

/-- A storage holding 1500 points with nondecreasing timestamps. -/
def exStorage1500 : StorageState :=
  { points := (List.range 1500).map (fun (i : ℕ) => mkPt (i : ℚ)), notifications := 0 }

/-- Three points forming a right triangle. -/
def exPts3 : List FBitmapPoint :=
  [mkPtPos ⟨0, 0, 0⟩, mkPtPos ⟨1, 0, 0⟩, mkPtPos ⟨0, 1, 0⟩]

/-- A mapper state with real-time updates initially enabled. -/
def exMapper : MapperState :=
  { storage := exStorage3, indexPoints := exStorage3.points,
    indexNotifications := 1, realTimeUpdatesEnabled := true,
    autoPlaneDetectionEnabled := false, updateBroadcasts := 0 }

/-- The default quality thresholds of the tracking manager. -/
def exThresholds : QualityThresholds :=
  { excellentThreshold := 9/10, normalThreshold := 7/10,
    limitedThreshold := 3/10 }

/-- A tracker state currently in full tracking. -/
def exTracker : TrackerState :=
  { sessionInfo := { trackingState := .fullTracking, trackingQuality := .excellent, trackingConfidence := 1, trackingInterruptions := 0 },
    stateHistory := [], lostEvents := 0, recoveredEvents := 0,
    stateChangedEvents := 0, qualityChangedEvents := 0,
    totalConfidence := 0, confidenceSamples := 0 }

/-- A freshly initialized mesh-generation manager. -/
def exManager : ManagerState := { activeJobs := [], nextJobID := 1 }

/-- A voxel with a given density at the origin. -/
def mkVoxel (v : ℚ) : FVoxel :=
  { value := v, position := ⟨0, 0, 0⟩, color := default }

/-- A cube whose corners are all below the iso-value `1`. -/
def exCubeAllBelow : Fin 8 → FVoxel := fun _ => mkVoxel 0

/-- A cube with corner 0 below the iso-value `1` and every other corner
above it (cube index 1). -/
def exCubeIndex1 : Fin 8 → FVoxel := fun i => if i = 0 then mkVoxel 0 else mkVoxel 2

/-- A cube with corner 0 above the iso-value `1` and every other corner
below it (cube index 254). -/
def exCubeIndex254 : Fin 8 → FVoxel := fun i => if i = 0 then mkVoxel 2 else mkVoxel 0


/-! ## Predicates used by the verification -/

/-- Lifecycle invariant: a terminal task status only arises once the worker
has finished, and a task recorded `Completed` or `Failed` has already left
the `ActiveJobs` registry (only the early-cancel path, which skips the
completion callback, leaves a terminated job registered, and it terminates
`Cancelled`). -/
def JobInv (s : JobLifeState) : Prop :=
  (s.taskStatus.isTerminal = true → s.finished = true) ∧
  ((s.taskStatus = TaskStatus.completed ∨ s.taskStatus = TaskStatus.failed) →
    s.inActive = false)

/-- Heap ordering on the candidate array restricted to the parent edges whose
parent index is at least `k`: entry `j` compares no farther than its parent
`(j - 1) / 2`.  With the inverted comparator of `FPointDistance` this says
every parent in the region holds a squared distance at least that of its
children. -/
def IsHeapFrom (l : List FPointDistance) (k : Nat) : Prop :=
  ∀ j, 0 < j → j < l.length → k ≤ (j - 1) / 2 →
    (l.getD j default).distanceSquared ≤
      (l.getD ((j - 1) / 2) default).distanceSquared

/-- Full heap ordering of the candidate array. -/
def IsHeap (l : List FPointDistance) : Prop := IsHeapFrom l 0

/-- Invariant of the sift-up pass at index `i`: every parent edge holds except
possibly the one entering `i`, and the children of `i` compare no farther than
the parent of `i`. -/
def UpInv (l : List FPointDistance) (i : Nat) : Prop :=
  (∀ j, 0 < j → j < l.length → j ≠ i →
    (l.getD j default).distanceSquared ≤
      (l.getD ((j - 1) / 2) default).distanceSquared) ∧
  (0 < i → ∀ c, 0 < c → c < l.length → (c - 1) / 2 = i →
    (l.getD c default).distanceSquared ≤
      (l.getD ((i - 1) / 2) default).distanceSquared)

/-- Invariant of the sift-down pass at node `v` over the region of parents at
least `k`: every parent edge in the region holds except those leaving `v`,
and once the pass has moved below its starting node (`v ≠ k`) the children of
`v` compare no farther than the parent of `v`. -/
def DownInv (l : List FPointDistance) (k v : Nat) : Prop :=
  (∀ j, 0 < j → j < l.length → k ≤ (j - 1) / 2 → (j - 1) / 2 ≠ v →
    (l.getD j default).distanceSquared ≤
      (l.getD ((j - 1) / 2) default).distanceSquared) ∧
  (v ≠ k → ∀ c, 0 < c → c < l.length → (c - 1) / 2 = v →
    (l.getD c default).distanceSquared ≤
      (l.getD ((v - 1) / 2) default).distanceSquared)

/-- Invariant of the bounded-heap candidate scan of `FindKNearestPoints`
after the candidates `seen` have been processed: the kept array is a heap of
correctly-computed squared distances, holds `min K` (number of in-range
candidates seen) entries, and together with some leftover list `rest` is a
permutation of the in-range candidates seen, every kept entry being at least
as close as every leftover. -/
def KnnInv (k : ℤ) (maxDsq : ℚ) (location : Vec3)
    (seen : List FBitmapPoint) (heap : List FPointDistance) : Prop :=
  IsHeap heap ∧
  (∀ e ∈ heap, e.distanceSquared = distSquared e.point.position location) ∧
  heap.length = min k.toNat
    (seen.filter (fun p =>
      decide (distSquared p.position location ≤ maxDsq))).length ∧
  ∃ rest, (heap.map (fun e => e.point) ++ rest).Perm
      (seen.filter (fun p =>
        decide (distSquared p.position location ≤ maxDsq))) ∧
    ∀ e ∈ heap, ∀ q ∈ rest,
      e.distanceSquared ≤ distSquared q.position location

/-! # Verified properties -/

/-! ## Memory manager: supporting lemmas -/

theorem storageRemovePointsWhere_points (pred : FBitmapPoint → Bool)
    (s : StorageState) :
    (storageRemovePointsWhere pred s).1.points =
      s.points.filter (fun p => !pred p) := by
  unfold storageRemovePointsWhere notifyPointsChanged
  dsimp only
  split <;> rfl

theorem removeExcessLoop_spec : ∀ (k : Nat) (s : StorageState),
    k ≤ s.points.length →
    removeExcessLoop k s =
      ({ points := s.points.drop k, notifications := s.notifications + k }, k) := by
  intro k
  induction k with
  | zero => intro s _; simp [removeExcessLoop]
  | succ n ih =>
    intro s h
    obtain ⟨a, t, hat⟩ : ∃ a t, s.points = a :: t := by
      cases hs : s.points with
      | nil => rw [hs] at h; simp at h
      | cons a t => exact ⟨a, t, rfl⟩
    have hlen : s.points.length > 0 := by rw [hat]; simp
    have ht : n ≤ t.length := by
      have := congrArg List.length hat
      simp only [List.length_cons] at this
      omega
    have hrp : storageRemovePoint 0 s =
        ({ points := t, notifications := s.notifications + 1 }, true) := by
      unfold storageRemovePoint notifyPointsChanged
      rw [if_pos hlen]
      simp [hat]
    simp only [removeExcessLoop, if_pos hlen, hrp]
    rw [ih { points := t, notifications := s.notifications + 1 } ht]
    simp [hat, Nat.add_assoc]
    omega

theorem removeExcessPoints_spec (maxPts : ℤ) (s : StorageState)
    (h1 : 0 < maxPts) (h2 : maxPts < (s.points.length : ℤ)) :
    removeExcessPoints maxPts s =
      ({ points := s.points.drop ((s.points.length : ℤ) - maxPts).toNat,
         notifications :=
           s.notifications + ((s.points.length : ℤ) - maxPts).toNat },
       ((s.points.length : ℤ) - maxPts).toNat) := by
  unfold removeExcessPoints
  rw [if_neg (by omega), if_neg (by omega)]
  exact removeExcessLoop_spec _ _ (by omega)

theorem removeExcessPoints_points_subset (maxPts : ℤ) (s : StorageState) :
    ∀ p ∈ (removeExcessPoints maxPts s).1.points, p ∈ s.points := by
  unfold removeExcessPoints
  split
  · exact fun p hp => hp
  split
  · exact fun p hp => hp
  intro p hp
  rename_i h1 h2
  rw [removeExcessLoop_spec _ _ (by omega)] at hp
  exact List.drop_subset _ _ hp

theorem removeExcessPoints_len (maxPts : ℤ) (s : StorageState)
    (h : 0 < maxPts) :
    ((removeExcessPoints maxPts s).1.points.length : ℤ) ≤ maxPts := by
  unfold removeExcessPoints
  rw [if_neg (by omega)]
  split
  · rename_i hle; exact hle
  · rename_i hgt
    rw [removeExcessLoop_spec _ _ (by omega)]
    simp only [List.length_drop]
    omega

theorem removeOldPoints_points (maxAge now : ℚ) (s : StorageState)
    (h : 0 < maxAge) :
    (removeOldPoints maxAge now s).1.points =
      s.points.filter (fun p => !decide (p.timestamp < now - maxAge)) := by
  unfold removeOldPoints
  rw [if_neg (by linarith)]
  exact storageRemovePointsWhere_points _ _

/-- C1: after a memory-manager cleanup pass (`PerformCleanupInternal`, as run
by `PerformCleanup` and by the periodic `Tick`), the stored point count is at
most the configured maximum whenever that maximum is positive, and whenever
the maximum age is positive no remaining point is older than the current time
minus the maximum age. -/
theorem cleanup_eviction_invariant (maxPts : ℤ) (maxAge now : ℚ)
    (s : StorageState) :
    (0 < maxPts →
      ((performCleanupInternal maxPts maxAge now s).1.points.length : ℤ)
        ≤ maxPts) ∧
    (0 < maxAge →
      ∀ p ∈ (performCleanupInternal maxPts maxAge now s).1.points,
        now - maxAge ≤ p.timestamp) := by
  constructor
  · intro hpos
    unfold performCleanupInternal
    exact removeExcessPoints_len maxPts _ hpos
  · intro hage p hp
    unfold performCleanupInternal at hp
    have hp2 : p ∈ (removeOldPoints maxAge now s).1.points :=
      removeExcessPoints_points_subset _ _ p hp
    rw [removeOldPoints_points _ _ _ hage] at hp2
    have hkeep := (List.mem_filter.mp hp2).2
    simp only [Bool.not_eq_true', decide_eq_false_iff_not] at hkeep
    linarith [not_lt.mp hkeep]

/-- Concrete check of `cleanup_eviction_invariant` on a three-point storage
with capacity 2 and maximum age 10 at time 5. -/
theorem cleanup_eviction_invariant_check :
    (((performCleanupInternal 2 10 5 exStorage3).1.points.length : ℤ) ≤ 2) ∧
    (∀ p ∈ (performCleanupInternal 2 10 5 exStorage3).1.points,
      (5 : ℚ) - 10 ≤ p.timestamp) :=
  ⟨(cleanup_eviction_invariant 2 10 5 exStorage3).1 (by norm_num),
   (cleanup_eviction_invariant 2 10 5 exStorage3).2 (by norm_num)⟩

/-- C6: with capacity 1000 and the age limit disabled, a cleanup pass over
1500 points (inserted with nondecreasing timestamps, as the ingestion path
stamps them) keeps exactly the last 1000 points, removes 500 points, and every
removed point has a timestamp at most that of every kept point. -/
theorem scenario_b_eviction (now : ℚ) (s : StorageState)
    (hlen : s.points.length = 1500)
    (hsorted : s.points.Pairwise (fun a b => a.timestamp ≤ b.timestamp)) :
    (performCleanupInternal 1000 0 now s).1.points = s.points.drop 500 ∧
    (performCleanupInternal 1000 0 now s).1.points.length = 1000 ∧
    (performCleanupInternal 1000 0 now s).2 = 500 ∧
    (∀ p ∈ s.points.take 500, ∀ q ∈ s.points.drop 500,
      p.timestamp ≤ q.timestamp) := by
  have hro : removeOldPoints 0 now s = (s, 0) := by
    unfold removeOldPoints
    rw [if_pos le_rfl]
  have hk : ((s.points.length : ℤ) - 1000).toNat = 500 := by
    rw [hlen]; rfl
  have hrx := removeExcessPoints_spec 1000 s (by norm_num)
    (by rw [hlen]; norm_num)
  rw [hk] at hrx
  have hcross : ∀ p ∈ s.points.take 500, ∀ q ∈ s.points.drop 500,
      p.timestamp ≤ q.timestamp := by
    have hsplit : s.points.take 500 ++ s.points.drop 500 = s.points :=
      List.take_append_drop 500 s.points
    have := List.pairwise_append.mp (by rw [hsplit]; exact hsorted)
    exact this.2.2
  refine ⟨?_, ?_, ?_, hcross⟩
  · unfold performCleanupInternal
    rw [hro]
    dsimp only
    rw [hrx]
  · unfold performCleanupInternal
    rw [hro]
    dsimp only
    rw [hrx]
    simp only [List.length_drop, hlen]
  · unfold performCleanupInternal
    rw [hro]
    dsimp only
    rw [hrx]
    simp

set_option maxRecDepth 4000 in
/-- Concrete check of `scenario_b_eviction` on 1500 points stamped
`0, 1, …, 1499`. -/
theorem scenario_b_eviction_check :
    (performCleanupInternal 1000 0 0 exStorage1500).1.points =
      exStorage1500.points.drop 500 ∧
    (performCleanupInternal 1000 0 0 exStorage1500).1.points.length = 1000 ∧
    (performCleanupInternal 1000 0 0 exStorage1500).2 = 500 ∧
    (∀ p ∈ exStorage1500.points.take 500,
      ∀ q ∈ exStorage1500.points.drop 500, p.timestamp ≤ q.timestamp) :=
  scenario_b_eviction 0 exStorage1500
    (by
      have h1 : exStorage1500.points =
          (List.range 1500).map (fun (i : ℕ) => mkPt (i : ℚ)) := rfl
      rw [h1, List.length_map, List.length_range])
    (by
      have h1 : exStorage1500.points =
          (List.range 1500).map (fun (i : ℕ) => mkPt (i : ℚ)) := rfl
      rw [h1, List.pairwise_map]
      exact (List.pairwise_lt_range 1500).imp (fun {i j} hij => by
        show ((i : ℚ)) ≤ ((j : ℚ))
        exact_mod_cast le_of_lt hij))

/-- C7 counterexample: with capacity 1 and three stored points, the excess
eviction pass removes two points and fires two points-changed notifications,
not a single aggregated one. -/
theorem eviction_notification_counterexample :
    (removeExcessPoints 1 exStorage3).2 = 2 ∧
    (removeExcessPoints 1 exStorage3).1.notifications = 2 ∧
    (removeExcessPoints 1 exStorage3).1.notifications ≠ 1 := by decide

/-- C7 amended: an age-eviction pass fires at most one aggregated
points-changed notification, but a size-eviction pass over a storage holding
more than the positive capacity fires exactly one notification per removed
point: removing N excess points produces N notifications. -/
theorem eviction_notification_counts (maxAge now : ℚ) (maxPts : ℤ)
    (s : StorageState) (h1 : 0 < maxPts)
    (h2 : maxPts < (s.points.length : ℤ)) :
    (removeOldPoints maxAge now s).1.notifications ≤ s.notifications + 1 ∧
    (removeExcessPoints maxPts s).1.notifications =
      s.notifications + ((s.points.length : ℤ) - maxPts).toNat ∧
    (removeExcessPoints maxPts s).2 =
      ((s.points.length : ℤ) - maxPts).toNat := by
  refine ⟨?_, ?_, ?_⟩
  · unfold removeOldPoints storageRemovePointsWhere notifyPointsChanged
    dsimp only
    split
    · simp
    split <;> simp
  · rw [removeExcessPoints_spec _ _ h1 h2]
  · rw [removeExcessPoints_spec _ _ h1 h2]

/-- Concrete check of `eviction_notification_counts` with capacity 1 over the
three-point storage. -/
theorem eviction_notification_counts_check :
    (removeOldPoints 10 0 exStorage3).1.notifications ≤
      exStorage3.notifications + 1 ∧
    (removeExcessPoints 1 exStorage3).1.notifications =
      exStorage3.notifications +
        ((exStorage3.points.length : ℤ) - 1).toNat ∧
    (removeExcessPoints 1 exStorage3).2 =
      ((exStorage3.points.length : ℤ) - 1).toNat :=
  eviction_notification_counts 10 0 1 exStorage3 (by norm_num) (by decide)

/-! ## Fan triangulation -/

/-- C8: the Mesh (fan triangulation) reconstruction on exactly 3 points
succeeds and produces exactly one triangle whose vertex indices are
`[0, 1, 2]`, in both the worker-task and the synchronous implementation. -/
theorem mesh_three_points_one_triangle (pts : List FBitmapPoint)
    (h : pts.length = 3) :
    (generateTriangulatedMesh pts).1 = true ∧
    (generateTriangulatedMesh pts).2.2 = [0, 1, 2] ∧
    (generateTriangulatedMesh pts).2.2.length / 3 = 1 ∧
    (generateMeshSection pts).2 = [0, 1, 2] := by
  unfold generateTriangulatedMesh generateMeshSection
  rw [h]
  refine ⟨rfl, rfl, ?_, rfl⟩
  show (fanLoop 3).length / 3 = 1
  rfl

/-- Concrete check of `mesh_three_points_one_triangle` on a right triangle. -/
theorem mesh_three_points_one_triangle_check :
    (generateTriangulatedMesh exPts3).1 = true ∧
    (generateTriangulatedMesh exPts3).2.2 = [0, 1, 2] ∧
    (generateTriangulatedMesh exPts3).2.2.length / 3 = 1 ∧
    (generateMeshSection exPts3).2 = [0, 1, 2] :=
  mesh_three_points_one_triangle exPts3 (by rfl)

/-! ## Ingestion facade -/

/-- C10: once real-time updates are disabled, `AddBitmapPoint` and
`AddBitmapPoints` leave the mapper state — the point store, the spatial index
content, and every broadcast counter — completely unchanged: supplied points
are discarded, not buffered, and no change notification fires. -/
theorem disabled_updates_discard_points (m : MapperState) (p : FBitmapPoint)
    (ps : List FBitmapPoint) (h : m.realTimeUpdatesEnabled = false) :
    addBitmapPoint p m = m ∧ addBitmapPoints ps m = m ∧
    (setRealTimeUpdates false m).realTimeUpdatesEnabled = false := by
  refine ⟨?_, ?_, rfl⟩
  · unfold addBitmapPoint
    rw [h]
    rfl
  · unfold addBitmapPoints
    rw [h]
    rfl

/-- Concrete check of `disabled_updates_discard_points` after an explicit
`SetRealTimeUpdates(false)` call. -/
theorem disabled_updates_discard_points_check :
    addBitmapPoint (mkPt 7) (setRealTimeUpdates false exMapper) =
      setRealTimeUpdates false exMapper ∧
    addBitmapPoints [mkPt 7, mkPt 8] (setRealTimeUpdates false exMapper) =
      setRealTimeUpdates false exMapper ∧
    (setRealTimeUpdates false (setRealTimeUpdates false exMapper)).realTimeUpdatesEnabled = false :=
  disabled_updates_discard_points (setRealTimeUpdates false exMapper)
    (mkPt 7) [mkPt 7, mkPt 8] (by rfl)

/-! ## Tracking state machine -/

theorem updateTrackingState_state (th : QualityThresholds)
    (new : ETrackingState) (c : ℚ) (s : TrackerState) :
    (updateTrackingState th new c s).sessionInfo.trackingState = new := by
  unfold updateTrackingState handleStateTransition addToHistory
  dsimp only
  split_ifs <;> rfl

theorem updateTrackingState_lostEvents (th : QualityThresholds)
    (new : ETrackingState) (c : ℚ) (s : TrackerState) :
    (updateTrackingState th new c s).lostEvents =
      (if s.sessionInfo.trackingState ≠ new ∧
          isLostTransition s.sessionInfo.trackingState new = true
       then s.lostEvents + 1 else s.lostEvents) := by
  unfold updateTrackingState handleStateTransition addToHistory
  dsimp only
  split_ifs <;> simp_all

theorem updateTrackingState_recoveredEvents (th : QualityThresholds)
    (new : ETrackingState) (c : ℚ) (s : TrackerState) :
    (updateTrackingState th new c s).recoveredEvents =
      (if s.sessionInfo.trackingState ≠ new ∧
          isLostTransition s.sessionInfo.trackingState new = false ∧
          isRecoveredTransition s.sessionInfo.trackingState new = true
       then s.recoveredEvents + 1 else s.recoveredEvents) := by
  unfold updateTrackingState handleStateTransition addToHistory
  dsimp only
  split_ifs <;> simp_all

theorem updateTrackingState_interruptions (th : QualityThresholds)
    (new : ETrackingState) (c : ℚ) (s : TrackerState) :
    (updateTrackingState th new c s).sessionInfo.trackingInterruptions =
      (if s.sessionInfo.trackingState ≠ new ∧
          isLostTransition s.sessionInfo.trackingState new = true
       then s.sessionInfo.trackingInterruptions + 1
       else s.sessionInfo.trackingInterruptions) := by
  unfold updateTrackingState handleStateTransition addToHistory
  dsimp only
  split_ifs <;> simp_all

/-- C9: starting in full tracking, updating to `TrackingLost` and then back
to `FullTracking` broadcasts exactly one tracking-lost event and exactly one
tracking-recovered event, and increments the session interruption counter by
exactly one. -/
theorem scenario_d_loss_recovery (th : QualityThresholds) (c1 c2 : ℚ)
    (s : TrackerState) (h : s.sessionInfo.trackingState = .fullTracking) :
    (updateTrackingState th .fullTracking c2
        (updateTrackingState th .trackingLost c1 s)).lostEvents =
      s.lostEvents + 1 ∧
    (updateTrackingState th .fullTracking c2
        (updateTrackingState th .trackingLost c1 s)).recoveredEvents =
      s.recoveredEvents + 1 ∧
    (updateTrackingState th .fullTracking c2
        (updateTrackingState th .trackingLost c1 s)).sessionInfo.trackingInterruptions =
      s.sessionInfo.trackingInterruptions + 1 := by
  have hs1 := updateTrackingState_state th .trackingLost c1 s
  refine ⟨?_, ?_, ?_⟩
  · rw [updateTrackingState_lostEvents, hs1]
    rw [updateTrackingState_lostEvents, h]
    simp [isLostTransition]
  · rw [updateTrackingState_recoveredEvents, hs1]
    rw [updateTrackingState_recoveredEvents, h]
    simp [isLostTransition, isRecoveredTransition]
  · rw [updateTrackingState_interruptions, hs1]
    rw [updateTrackingState_interruptions, h]
    simp [isLostTransition]

/-- Concrete check of `scenario_d_loss_recovery` on a session in full
tracking. -/
theorem scenario_d_loss_recovery_check :
    (updateTrackingState exThresholds .fullTracking 1
        (updateTrackingState exThresholds .trackingLost (1/4) exTracker)).lostEvents =
      exTracker.lostEvents + 1 ∧
    (updateTrackingState exThresholds .fullTracking 1
        (updateTrackingState exThresholds .trackingLost (1/4) exTracker)).recoveredEvents =
      exTracker.recoveredEvents + 1 ∧
    (updateTrackingState exThresholds .fullTracking 1
        (updateTrackingState exThresholds .trackingLost (1/4) exTracker)).sessionInfo.trackingInterruptions =
      exTracker.sessionInfo.trackingInterruptions + 1 :=
  scenario_d_loss_recovery exThresholds (1/4) 1 exTracker (by rfl)

/-! ## Job submission -/

/-- C5: `SubmitMeshGenerationJob` returns `-1` exactly when the submission is
rejected — capacity check failed (running-job or queued-job cap), empty input,
or thread-creation failure — and registers no job in that case; otherwise it
returns the fresh positive id drawn from the monotonically increasing counter
and registers exactly that job. -/
theorem submit_rejection_iff (maxW maxQ : ℤ) (numPoints : Nat)
    (threadOk : Bool) (s : ManagerState) (hc : 0 ≤ s.nextJobID)
    (hids : ∀ e ∈ s.activeJobs, e.id ≤ s.nextJobID) :
    ((submitMeshGenerationJob maxW maxQ numPoints threadOk s).1 = -1 ↔
      (canStartNewJob maxW maxQ s = false ∨ numPoints = 0 ∨
        threadOk = false)) ∧
    ((submitMeshGenerationJob maxW maxQ numPoints threadOk s).1 = -1 →
      (submitMeshGenerationJob maxW maxQ numPoints threadOk s).2.activeJobs =
        s.activeJobs) ∧
    ((submitMeshGenerationJob maxW maxQ numPoints threadOk s).1 ≠ -1 →
      0 < (submitMeshGenerationJob maxW maxQ numPoints threadOk s).1 ∧
      (submitMeshGenerationJob maxW maxQ numPoints threadOk s).1 =
        s.nextJobID + 1 ∧
      (submitMeshGenerationJob maxW maxQ numPoints threadOk s).2.nextJobID =
        s.nextJobID + 1 ∧
      (submitMeshGenerationJob maxW maxQ numPoints threadOk s).2.activeJobs =
        s.activeJobs ++
          [{ id := s.nextJobID + 1, taskStatus := TaskStatus.pending }] ∧
      ∀ e ∈ s.activeJobs, e.id ≠ s.nextJobID + 1) := by
  by_cases hcs : canStartNewJob maxW maxQ s = true
  · by_cases hnp : numPoints = 0
    · have heq : submitMeshGenerationJob maxW maxQ numPoints threadOk s =
          (-1, s) := by
        unfold submitMeshGenerationJob
        rw [hcs, hnp]
        rfl
      rw [heq]
      exact ⟨by simp [hnp], fun _ => rfl, fun habs => absurd rfl habs⟩
    · cases threadOk with
      | false =>
        have heq : submitMeshGenerationJob maxW maxQ numPoints false s =
            (-1, { s with nextJobID := s.nextJobID + 1 }) := by
          unfold submitMeshGenerationJob generateJobID
          rw [hcs]
          simp [hnp]
        rw [heq]
        exact ⟨by simp, fun _ => rfl, fun habs => absurd rfl habs⟩
      | true =>
        have heq : submitMeshGenerationJob maxW maxQ numPoints true s =
            (s.nextJobID + 1,
             { activeJobs := s.activeJobs ++
                 [{ id := s.nextJobID + 1, taskStatus := TaskStatus.pending }],
               nextJobID := s.nextJobID + 1 }) := by
          unfold submitMeshGenerationJob generateJobID
          rw [hcs]
          simp [hnp]
        rw [heq]
        refine ⟨⟨fun habs => absurd habs (by omega), ?_⟩,
          fun habs => absurd habs (by omega),
          fun _ => ⟨by omega, rfl, rfl, rfl, fun e he => by
            have := hids e he; omega⟩⟩
        rintro (h1 | h2 | h3)
        · rw [hcs] at h1; cases h1
        · exact absurd h2 hnp
        · cases h3
  · have hb : canStartNewJob maxW maxQ s = false := by
      simpa using hcs
    have heq : submitMeshGenerationJob maxW maxQ numPoints threadOk s =
        (-1, s) := by
      unfold submitMeshGenerationJob
      rw [hb]
      rfl
    rw [heq]
    exact ⟨by simp [hb], fun _ => rfl, fun habs => absurd rfl habs⟩

/-- Concrete check of `submit_rejection_iff` on a fresh manager accepting a
10-point job. -/
theorem submit_rejection_iff_check :
    ((submitMeshGenerationJob 4 10 10 true exManager).1 = -1 ↔
      (canStartNewJob 4 10 exManager = false ∨ (10 : Nat) = 0 ∨
        true = false)) ∧
    ((submitMeshGenerationJob 4 10 10 true exManager).1 = -1 →
      (submitMeshGenerationJob 4 10 10 true exManager).2.activeJobs =
        exManager.activeJobs) ∧
    ((submitMeshGenerationJob 4 10 10 true exManager).1 ≠ -1 →
      0 < (submitMeshGenerationJob 4 10 10 true exManager).1 ∧
      (submitMeshGenerationJob 4 10 10 true exManager).1 =
        exManager.nextJobID + 1 ∧
      (submitMeshGenerationJob 4 10 10 true exManager).2.nextJobID =
        exManager.nextJobID + 1 ∧
      (submitMeshGenerationJob 4 10 10 true exManager).2.activeJobs =
        exManager.activeJobs ++
          [{ id := exManager.nextJobID + 1, taskStatus := TaskStatus.pending }] ∧
      ∀ e ∈ exManager.activeJobs, e.id ≠ exManager.nextJobID + 1) :=
  submit_rejection_iff 4 10 10 true exManager (by decide) (by decide)

/-! ## Job lifecycle -/

theorem jobStep_taskStatus_terminal (e : JobEvent) (s : JobLifeState)
    (h : s.taskStatus.isTerminal = true) :
    (jobStep e s).taskStatus = s.taskStatus := by
  rcases s with ⟨info, task, cf, ia, fin⟩
  cases e <;> cases task <;>
    simp_all [jobStep, TaskStatus.isTerminal] <;>
    split_ifs <;> rfl

theorem jobStep_preserves_inv (e : JobEvent) (s : JobLifeState)
    (h : JobInv s) : JobInv (jobStep e s) := by
  unfold JobInv at h ⊢
  rcases s with ⟨info, task, cf, ia, fin⟩
  revert h
  cases e with
  | taskInit =>
    cases info <;> cases task <;> cases cf <;> cases ia <;> cases fin <;>
      decide
  | cancelJob =>
    cases info <;> cases task <;> cases cf <;> cases ia <;> cases fin <;>
      decide
  | finishRun g early =>
    cases info <;> cases task <;> cases cf <;> cases ia <;> cases fin <;>
      cases g <;> cases early <;> decide
  | getJobInfo =>
    cases info <;> cases task <;> cases cf <;> cases ia <;> cases fin <;>
      decide

theorem jobRun_inv : ∀ (evs : List JobEvent) (s : JobLifeState),
    JobInv s → JobInv (jobRun evs s) := by
  intro evs
  induction evs with
  | nil => intro s h; exact h
  | cons e rest ih =>
    intro s h
    exact ih (jobStep e s) (jobStep_preserves_inv e s h)

theorem jobStep_absorbed (e : JobEvent) (s : JobLifeState) (hinv : JobInv s)
    (hterm : s.taskStatus.isTerminal = true)
    (hsync : s.infoStatus = s.taskStatus) :
    (jobStep e s).infoStatus = s.infoStatus := by
  rcases s with ⟨info, task, cf, ia, fin⟩
  obtain ⟨h1, h2⟩ := hinv
  cases e with
  | taskInit =>
    cases task <;> simp_all [jobStep, TaskStatus.isTerminal]
  | cancelJob =>
    simp only [jobStep]
    split_ifs with hia
    · cases task <;> simp_all [TaskStatus.isTerminal]
    · rfl
  | finishRun g early =>
    simp only [jobStep]
    split_ifs with hg hc hia <;>
      first
        | rfl
        | simp_all [TaskStatus.isTerminal, Bool.and_eq_true,
            decide_eq_true_eq]
  | getJobInfo =>
    simp only [jobStep]
    exact hsync.symm

/-- C4 counterexample: a job cancelled while its worker is mid-run is
recorded `Cancelled`; when the worker finishes, `OnJobCompleted` re-records
the very same job as `Failed` (raw generator flag false) or even `Completed`
(the raw flag is passed through on a late cancel), and a following
`GetJobInfo` query rewrites the recorded status from the task status again,
flipping the recorded `Failed` back to `Cancelled` — the recorded terminal
status changes after having been set. -/
theorem cancelled_job_rerecorded_failed :
    (jobRun [JobEvent.taskInit, JobEvent.cancelJob] jobSubmitted).infoStatus =
      TaskStatus.cancelled ∧
    (jobRun [JobEvent.taskInit, JobEvent.cancelJob,
        JobEvent.finishRun false false] jobSubmitted).infoStatus =
      TaskStatus.failed ∧
    (jobRun [JobEvent.taskInit, JobEvent.cancelJob,
        JobEvent.finishRun false false, JobEvent.getJobInfo]
        jobSubmitted).infoStatus = TaskStatus.cancelled ∧
    (jobRun [JobEvent.taskInit, JobEvent.cancelJob,
        JobEvent.finishRun true false] jobSubmitted).infoStatus =
      TaskStatus.completed ∧
    (jobRun [JobEvent.taskInit, JobEvent.cancelJob,
        JobEvent.finishRun true false] jobSubmitted).taskStatus =
      TaskStatus.cancelled := by decide

/-- C4 amended: the worker task status reaches a terminal value at most once
and never changes afterwards.  The manager-recorded status is not stable on
its own: `CancelJob` overwrites it while the job is registered,
`OnJobCompleted` re-records a mid-run-cancelled job from the raw generator
flag, and `GetJobInfo` rewrites it from the task status on every query (see
`cancelled_job_rerecorded_failed`); but once the task has terminated and the
recorded status agrees with the task status, no further event changes the
recorded status. -/
theorem job_terminal_status_stability (evs : List JobEvent) (e : JobEvent) :
    ((jobRun evs jobSubmitted).taskStatus.isTerminal = true →
      (jobStep e (jobRun evs jobSubmitted)).taskStatus =
        (jobRun evs jobSubmitted).taskStatus) ∧
    ((jobRun evs jobSubmitted).taskStatus.isTerminal = true →
      (jobRun evs jobSubmitted).infoStatus =
        (jobRun evs jobSubmitted).taskStatus →
      (jobStep e (jobRun evs jobSubmitted)).infoStatus =
        (jobRun evs jobSubmitted).infoStatus) := by
  constructor
  · exact jobStep_taskStatus_terminal e (jobRun evs jobSubmitted)
  · intro hterm hsync
    refine jobStep_absorbed e _ (jobRun_inv evs jobSubmitted ?_) hterm hsync
    constructor <;> intro h <;>
      simp [jobSubmitted, TaskStatus.isTerminal] at h

/-- Concrete check of `job_terminal_status_stability`: a job that completed
uncancelled (task and recorded status both `Completed`) is not touched by a
late cancellation attempt. -/
theorem job_terminal_status_stability_check :
    (jobStep JobEvent.cancelJob
        (jobRun [JobEvent.taskInit, JobEvent.finishRun true false]
          jobSubmitted)).taskStatus =
      (jobRun [JobEvent.taskInit, JobEvent.finishRun true false]
        jobSubmitted).taskStatus ∧
    (jobStep JobEvent.cancelJob
        (jobRun [JobEvent.taskInit, JobEvent.finishRun true false]
          jobSubmitted)).infoStatus =
      (jobRun [JobEvent.taskInit, JobEvent.finishRun true false]
        jobSubmitted).infoStatus :=
  ⟨(job_terminal_status_stability
      [JobEvent.taskInit, JobEvent.finishRun true false]
      JobEvent.cancelJob).1 (by decide),
   (job_terminal_status_stability
      [JobEvent.taskInit, JobEvent.finishRun true false]
      JobEvent.cancelJob).2 (by decide) (by decide)⟩

/-! ## Marching cubes classification -/

theorem cubeIndexOf_all_below (cube : Fin 8 → FVoxel) (iso : ℚ)
    (h : ∀ i, (cube i).value < iso) : cubeIndexOf cube iso = 255 := by
  unfold cubeIndexOf
  rw [if_pos (h 0), if_pos (h 1), if_pos (h 2), if_pos (h 3), if_pos (h 4),
    if_pos (h 5), if_pos (h 6), if_pos (h 7)]

theorem cubeIndexOf_only_corner0_below (cube : Fin 8 → FVoxel) (iso : ℚ)
    (h0 : (cube 0).value < iso)
    (h : ∀ i : Fin 8, i ≠ 0 → ¬((cube i).value < iso)) :
    cubeIndexOf cube iso = 1 := by
  unfold cubeIndexOf
  rw [if_pos h0, if_neg (h 1 (by decide)), if_neg (h 2 (by decide)),
    if_neg (h 3 (by decide)), if_neg (h 4 (by decide)),
    if_neg (h 5 (by decide)), if_neg (h 6 (by decide)),
    if_neg (h 7 (by decide))]

theorem cubeIndexOf_only_corner0_above (cube : Fin 8 → FVoxel) (iso : ℚ)
    (h0 : ¬((cube 0).value < iso))
    (h : ∀ i : Fin 8, i ≠ 0 → (cube i).value < iso) :
    cubeIndexOf cube iso = 254 := by
  unfold cubeIndexOf
  rw [if_neg h0, if_pos (h 1 (by decide)), if_pos (h 2 (by decide)),
    if_pos (h 3 (by decide)), if_pos (h 4 (by decide)),
    if_pos (h 5 (by decide)), if_pos (h 6 (by decide)),
    if_pos (h 7 (by decide))]

/-- C2 counterexample: in the source, classification bit `i` is set when
corner `i` is below the iso-value, so a cell whose single corner 0 is above
the iso-value (all seven others below) classifies as index 254, not 1 — and
the triangle-table row for 254 lies in the zero-filled truncated region, so
the emission loop never meets a `-1` terminator and no triangle list is
produced at all, let alone the one-triangle output documented for index 1. -/
theorem marching_cubes_index1_counterexample :
    cubeIndexOf exCubeIndex254 1 = 254 ∧
    (254 : ℕ) ≠ 1 ∧
    processCube exCubeIndex254 1 = none ∧
    (processCube exCubeIndex254 1).map List.length ≠ some 1 := by decide

/-- C2 amended: (a) a cell with every corner density below the iso-value
classifies as 255 with an empty edge mask and produces zero triangles;
(b) a cell with corner 0 below and the others at or above the iso-value (the
configuration the tables document as index 1) produces exactly one triangle,
interpolated on edges 0, 8 and 3; (c) a cell with a single corner above and
seven below maps to index 254, whose zero-filled truncated table row leaves
the emission loop without a terminator, so no triangle list is defined. -/
theorem marching_cubes_classification :
    (∀ (cube : Fin 8 → FVoxel) (iso : ℚ), (∀ i, (cube i).value < iso) →
      processCube cube iso = some []) ∧
    (∀ (cube : Fin 8 → FVoxel) (iso : ℚ), (cube 0).value < iso →
      (∀ i : Fin 8, i ≠ 0 → ¬((cube i).value < iso)) →
      cubeIndexOf cube iso = 1 ∧
      processCube cube iso = some
        [{ v0 := edgeVert cube iso 0, v1 := edgeVert cube iso 8,
           v2 := edgeVert cube iso 3, c0 := edgeColor cube iso 0,
           c1 := edgeColor cube iso 8, c2 := edgeColor cube iso 3 }]) ∧
    (∀ (cube : Fin 8 → FVoxel) (iso : ℚ), ¬((cube 0).value < iso) →
      (∀ i : Fin 8, i ≠ 0 → (cube i).value < iso) →
      cubeIndexOf cube iso = 254 ∧ processCube cube iso = none) := by
  refine ⟨?_, ?_, ?_⟩
  · intro cube iso h
    unfold processCube
    rw [cubeIndexOf_all_below cube iso h]
    rfl
  · intro cube iso h0 h
    have hci := cubeIndexOf_only_corner0_below cube iso h0 h
    refine ⟨hci, ?_⟩
    unfold processCube
    rw [hci]
    rw [if_neg (by decide)]
    rw [show triScanFrom (triTable.getD 1 []) 0 =
      some [((0 : ℤ), (8 : ℤ), (3 : ℤ))] from by decide]
    rfl
  · intro cube iso h0 h
    have hci := cubeIndexOf_only_corner0_above cube iso h0 h
    refine ⟨hci, ?_⟩
    unfold processCube
    rw [hci]
    rw [if_neg (by decide)]
    rw [show triScanFrom (triTable.getD 254 []) 0 = none from by decide]

/-- Concrete check of `marching_cubes_classification` on the three example
cubes at iso-value `1/2`. -/
theorem marching_cubes_classification_check :
    processCube exCubeAllBelow 1 = some [] ∧
    cubeIndexOf exCubeIndex1 1 = 1 ∧
    cubeIndexOf exCubeIndex254 1 = 254 := by
  refine ⟨marching_cubes_classification.1 exCubeAllBelow 1 ?_,
    (marching_cubes_classification.2.1 exCubeIndex1 1 ?_ ?_).1,
    (marching_cubes_classification.2.2 exCubeIndex254 1 ?_ ?_).1⟩
  · intro i; fin_cases i <;> decide
  · decide
  · intro i hi; fin_cases i <;> simp_all [exCubeIndex1, mkVoxel]
  · decide
  · intro i hi; fin_cases i <;> simp_all [exCubeIndex254, mkVoxel]

/-! ## Binary heap: basic lemmas -/

theorem pdLess_iff (a b : FPointDistance) :
    pdLess a b = true ↔ b.distanceSquared < a.distanceSquared := by
  simp [pdLess]

theorem getD_set_self_q (l : List FPointDistance) (i : Nat)
    (a : FPointDistance) (h : i < l.length) :
    (l.set i a).getD i default = a := by
  rw [List.getD_eq_getElem?_getD, List.getElem?_set_self h]
  rfl

theorem getD_set_ne_q (l : List FPointDistance) {i j : Nat}
    (a : FPointDistance) (h : i ≠ j) :
    (l.set i a).getD j default = l.getD j default := by
  rw [List.getD_eq_getElem?_getD, List.getElem?_set_ne h,
    ← List.getD_eq_getElem?_getD]

theorem heapSwap_length (l : List FPointDistance) (i j : Nat) :
    (heapSwap l i j).length = l.length := by
  simp [heapSwap]

theorem heapSwap_getD_fst (l : List FPointDistance) {i j : Nat}
    (hi : i < l.length) (hij : i ≠ j) :
    (heapSwap l i j).getD i default = l.getD j default := by
  unfold heapSwap
  rw [getD_set_ne_q _ _ (Ne.symm hij), getD_set_self_q _ _ _ hi]

theorem heapSwap_getD_snd (l : List FPointDistance) {i j : Nat}
    (hj : j < l.length) :
    (heapSwap l i j).getD j default = l.getD i default := by
  unfold heapSwap
  rw [getD_set_self_q]
  simpa using hj

theorem heapSwap_getD_other (l : List FPointDistance) {i j x : Nat}
    (hxi : x ≠ i) (hxj : x ≠ j) :
    (heapSwap l i j).getD x default = l.getD x default := by
  unfold heapSwap
  rw [getD_set_ne_q _ _ (Ne.symm hxj), getD_set_ne_q _ _ (Ne.symm hxi)]

theorem heapSwap_perm (l : List FPointDistance) (i j : Nat)
    (hi : i < l.length) (hj : j < l.length) : (heapSwap l i j).Perm l := by
  by_cases hij : i = j
  · subst hij
    unfold heapSwap
    rw [List.set_set, List.perm_iff_count]
    intro b
    rw [List.count_set _ _ _ _ hi, List.getD_eq_getElem l default hi]
    by_cases hA : l[i] = b
    · have hCpos : 0 < List.count b l :=
        List.count_pos_iff.mpr (hA ▸ List.getElem_mem hi)
      simp [hA]
      omega
    · simp [hA]
  · rw [List.perm_iff_count]
    intro b
    have hj2 : j < (l.set i (l.getD j default)).length := by simpa using hj
    have hset : (l.set i (l.getD j default))[j] = l[j] :=
      List.getElem_set_ne hij hj2
    unfold heapSwap
    rw [List.count_set _ _ _ _ hj2, List.count_set _ _ _ _ hi, hset,
      List.getD_eq_getElem l default hi, List.getD_eq_getElem l default hj]
    by_cases hA : l[i] = b
    · have hCpos : 0 < List.count b l :=
        List.count_pos_iff.mpr (hA ▸ List.getElem_mem hi)
      by_cases hB : l[j] = b <;> simp [hA, hB] <;> omega
    · by_cases hB : l[j] = b <;> simp [hA, hB]

theorem heapifyUp_perm : ∀ (i : Nat) (l : List FPointDistance),
    i < l.length → (heapifyUp l i).Perm l := by
  intro i
  induction i using Nat.strong_induction_on with
  | _ i ih =>
    intro l hl
    rw [heapifyUp]
    split
    · exact List.Perm.refl l
    · rename_i h0
      split
      · rename_i hless
        have hp : (i - 1) / 2 < i := by omega
        have hswap := heapSwap_length l ((i - 1) / 2) i
        exact (ih _ hp (heapSwap l ((i - 1) / 2) i) (by omega)).trans
          (heapSwap_perm l _ i (by omega) hl)
      · exact List.Perm.refl l

theorem heapifyUp_length (i : Nat) (l : List FPointDistance)
    (h : i < l.length) : (heapifyUp l i).length = l.length :=
  (heapifyUp_perm i l h).length_eq

theorem heapifyUp_isHeap : ∀ (i : Nat) (l : List FPointDistance),
    i < l.length → UpInv l i → IsHeap (heapifyUp l i) := by
  intro i
  induction i using Nat.strong_induction_on with
  | _ i ih =>
    intro l hl hinv
    rw [heapifyUp]
    split
    · rename_i h0
      subst h0
      intro j hj hjl _
      exact hinv.1 j hj hjl (by omega)
    · rename_i h0
      split
      · rename_i hless
        rw [pdLess_iff] at hless
        have hp : (i - 1) / 2 < i := by omega
        have hpl : (i - 1) / 2 < l.length := by omega
        have hlen := heapSwap_length l ((i - 1) / 2) i
        refine ih _ hp _ (by omega) ⟨?_, ?_⟩
        · intro j hj hjl hjp
          rw [hlen] at hjl
          by_cases hji : j = i
          · subst hji
            rw [heapSwap_getD_snd l hl,
              heapSwap_getD_fst l hpl (by omega)]
            exact le_of_lt hless
          · rw [heapSwap_getD_other l hjp hji]
            by_cases hparp : (j - 1) / 2 = (i - 1) / 2
            · rw [hparp, heapSwap_getD_fst l hpl (by omega)]
              have h1 := hinv.1 j hj hjl hji
              rw [hparp] at h1
              exact le_trans h1 (le_of_lt hless)
            · by_cases hpari : (j - 1) / 2 = i
              · rw [hpari, heapSwap_getD_snd l hl]
                exact hinv.2 (by omega) j hj hjl hpari
              · rw [heapSwap_getD_other l hparp hpari]
                exact hinv.1 j hj hjl hji
        · intro hp0 c hc hcl hcp
          rw [hlen] at hcl
          have hppi : (((i - 1) / 2) - 1) / 2 ≠ i := by omega
          have hppp : (((i - 1) / 2) - 1) / 2 ≠ (i - 1) / 2 := by omega
          rw [heapSwap_getD_other l hppp hppi]
          by_cases hci : c = i
          · subst hci
            rw [heapSwap_getD_snd l hl]
            exact hinv.1 ((c - 1) / 2) hp0 hpl (by omega)
          · have hcpne : c ≠ (i - 1) / 2 := by omega
            rw [heapSwap_getD_other l hcpne hci]
            have h1 := hinv.1 c hc hcl hci
            rw [hcp] at h1
            exact le_trans h1 (hinv.1 ((i - 1) / 2) hp0 hpl (by omega))
      · rename_i hnotless
        intro j hj hjl _
        by_cases hji : j = i
        · subst hji
          have := (not_iff_not.mpr (pdLess_iff (l.getD j default)
            (l.getD ((j - 1) / 2) default))).mp (by simpa using hnotless)
          exact not_lt.mp this
        · exact hinv.1 j hj hjl hji

theorem upInv_push (l : List FPointDistance) (x : FPointDistance)
    (h : IsHeap l) : UpInv (l ++ [x]) l.length := by
  constructor
  · intro j hj hjl hjn
    rw [List.length_append, List.length_cons, List.length_nil] at hjl
    have hjl' : j < l.length := by omega
    have hpl : (j - 1) / 2 < l.length := by omega
    rw [List.getD_append _ _ _ _ hjl', List.getD_append _ _ _ _ hpl]
    exact h j hj hjl' (Nat.zero_le _)
  · intro hn c hc hcl hcp
    rw [List.length_append, List.length_cons, List.length_nil] at hcl
    omega

theorem sdChild_gt (l : List FPointDistance) (i : Nat) : i < sdChild l i := by
  unfold sdChild
  split <;> omega

theorem sdChild_child (l : List FPointDistance) (i : Nat) :
    sdChild l i = 2 * i + 1 ∨ sdChild l i = 2 * i + 2 := by
  unfold sdChild
  split
  · exact Or.inr rfl
  · exact Or.inl rfl

theorem sdChild_lt (l : List FPointDistance) (i : Nat)
    (h : 2 * i + 1 < l.length) : sdChild l i < l.length := by
  unfold sdChild
  split
  · rename_i hc
    exact hc.1
  · exact h

theorem sdChild_max (l : List FPointDistance) (i d : Nat)
    (hd : d = 2 * i + 1 ∨ d = 2 * i + 2) (hdl : d < l.length) :
    (l.getD d default).distanceSquared ≤
      (l.getD (sdChild l i) default).distanceSquared := by
  unfold sdChild
  split
  · rename_i hc
    rcases hd with hd | hd <;> subst hd
    · exact le_of_lt ((pdLess_iff _ _).mp hc.2)
    · exact le_refl _
  · rename_i hc
    rcases hd with hd | hd <;> subst hd
    · exact le_refl _
    · have hnp : ¬(pdLess (l.getD (2 * i + 2) default)
          (l.getD (2 * i + 1) default) = true) := fun hp => hc ⟨hdl, hp⟩
      exact not_lt.mp (fun hlt => hnp ((pdLess_iff _ _).mpr hlt))

theorem siftDown_perm_aux : ∀ (m i : Nat) (l : List FPointDistance),
    l.length - i ≤ m → (siftDown l i).Perm l := by
  intro m
  induction m with
  | zero =>
    intro i l h
    rw [siftDown, dif_neg (show ¬(2 * i + 1 < l.length) by omega)]
  | succ m ih =>
    intro i l h
    rw [siftDown]
    split
    · rename_i hlt
      split
      · rename_i hless
        have hc1 := sdChild_gt l i
        have hc2 := sdChild_lt l i hlt
        have hlen := heapSwap_length l i (sdChild l i)
        exact (ih (sdChild l i) _ (by omega)).trans
          (heapSwap_perm l i (sdChild l i) (by omega) hc2)
      · exact List.Perm.refl l
    · exact List.Perm.refl l

theorem siftDown_perm (l : List FPointDistance) (i : Nat) :
    (siftDown l i).Perm l :=
  siftDown_perm_aux l.length i l (by omega)

theorem siftDown_length (l : List FPointDistance) (i : Nat) :
    (siftDown l i).length = l.length :=
  (siftDown_perm l i).length_eq

theorem downInv_stop (l : List FPointDistance) (k v : Nat)
    (hinv : DownInv l k v)
    (hch : ∀ j, 0 < j → j < l.length → (j - 1) / 2 = v →
      (l.getD j default).distanceSquared ≤
        (l.getD v default).distanceSquared) :
    IsHeapFrom l k := by
  intro j hj hjl hkp
  by_cases hpv : (j - 1) / 2 = v
  · rw [hpv]
    exact hch j hj hjl hpv
  · exact hinv.1 j hj hjl hkp hpv

theorem siftDown_isHeapFrom_aux : ∀ (m v : Nat) (l : List FPointDistance),
    l.length - v ≤ m → ∀ k, k ≤ v → DownInv l k v →
    IsHeapFrom (siftDown l v) k := by
  intro m
  induction m with
  | zero =>
    intro v l h k hkv hinv
    rw [siftDown, dif_neg (show ¬(2 * v + 1 < l.length) by omega)]
    exact downInv_stop l k v hinv (fun j hj hjl hpv => absurd hjl (by omega))
  | succ m ih =>
    intro v l h k hkv hinv
    rw [siftDown]
    split
    · rename_i hlt
      split
      · rename_i hless
        have hc1 := sdChild_gt l v
        have hc2 := sdChild_lt l v hlt
        have hcc := sdChild_child l v
        have hlen := heapSwap_length l v (sdChild l v)
        rw [pdLess_iff] at hless
        refine ih (sdChild l v) _ (by omega) k (by omega) ⟨?_, ?_⟩
        · intro j hj hjl hkp hpc
          rw [hlen] at hjl
          by_cases hjv : j = v
          · rw [hjv] at hkp ⊢
            have hvpos : 0 < v := by omega
            rw [heapSwap_getD_fst l (by omega) (by omega),
              heapSwap_getD_other l (show (v - 1) / 2 ≠ v by omega)
                (show (v - 1) / 2 ≠ sdChild l v by omega)]
            exact hinv.2 (by omega) (sdChild l v) (by omega) hc2 (by omega)
          · by_cases hjc : j = sdChild l v
            · rw [hjc, (show (sdChild l v - 1) / 2 = v by omega),
                heapSwap_getD_snd l hc2,
                heapSwap_getD_fst l (by omega) (by omega)]
              exact le_of_lt hless
            · rw [heapSwap_getD_other l hjv hjc]
              by_cases hpj : (j - 1) / 2 = v
              · rw [hpj, heapSwap_getD_fst l (by omega) (by omega)]
                exact sdChild_max l v j (by omega) hjl
              · rw [heapSwap_getD_other l hpj hpc]
                exact hinv.1 j hj hjl hkp hpj
        · intro hck d hd hdl hdc
          rw [hlen] at hdl
          rw [(show (sdChild l v - 1) / 2 = v by omega),
            heapSwap_getD_fst l (by omega) (by omega),
            heapSwap_getD_other l (show d ≠ v by omega)
              (show d ≠ sdChild l v by omega)]
          have h1 := hinv.1 d hd hdl (by omega) (by omega)
          rw [hdc] at h1
          exact h1
      · rename_i hnless
        have hcv : (l.getD (sdChild l v) default).distanceSquared ≤
            (l.getD v default).distanceSquared :=
          not_lt.mp (fun hl2 => hnless ((pdLess_iff _ _).mpr hl2))
        have hcc := sdChild_child l v
        exact downInv_stop l k v hinv (fun j hj hjl hpv =>
          le_trans (sdChild_max l v j (by omega) hjl) hcv)
    · rename_i hnlt
      exact downInv_stop l k v hinv (fun j hj hjl hpv => absurd hjl (by omega))

theorem downInv_refl (l : List FPointDistance) (i : Nat)
    (h : IsHeapFrom l (i + 1)) : DownInv l i i := by
  constructor
  · intro j hj hjl hkp hpv
    exact h j hj hjl (by omega)
  · intro hne
    exact absurd rfl hne

theorem heapifyFrom_isHeap : ∀ (i : Nat) (l : List FPointDistance),
    IsHeapFrom l (i + 1) → IsHeap (heapifyFrom l i) := by
  intro i
  induction i with
  | zero =>
    intro l h
    exact siftDown_isHeapFrom_aux l.length 0 l (by omega) 0 (le_refl 0)
      (downInv_refl l 0 h)
  | succ i ih =>
    intro l h
    exact ih (siftDown l (i + 1))
      (siftDown_isHeapFrom_aux l.length (i + 1) l (by omega) (i + 1)
        (le_refl _) (downInv_refl l (i + 1) h))

theorem heapifyFrom_perm : ∀ (i : Nat) (l : List FPointDistance),
    (heapifyFrom l i).Perm l := by
  intro i
  induction i with
  | zero =>
    intro l
    exact siftDown_perm l 0
  | succ i ih =>
    intro l
    exact (ih (siftDown l (i + 1))).trans (siftDown_perm l (i + 1))

theorem heapify_isHeap (l : List FPointDistance) : IsHeap (heapify l) := by
  unfold heapify
  split
  · rename_i he
    rw [List.isEmpty_iff] at he
    subst he
    intro j hj hjl hkp
    simp at hjl
  · apply heapifyFrom_isHeap
    intro j hj hjl hkp
    exact absurd hkp (by omega)

theorem heapify_perm (l : List FPointDistance) : (heapify l).Perm l := by
  unfold heapify
  split
  · exact List.Perm.refl l
  · exact heapifyFrom_perm _ l

theorem isHeap_root_max (l : List FPointDistance) (h : IsHeap l) :
    ∀ j, j < l.length →
      (l.getD j default).distanceSquared ≤
        (l.getD 0 default).distanceSquared := by
  intro j
  induction j using Nat.strong_induction_on with
  | _ j ih =>
    intro hjl
    rcases Nat.eq_zero_or_pos j with hz | hp
    · subst hz
      exact le_refl _
    · exact le_trans (h j hp hjl (Nat.zero_le _))
        (ih ((j - 1) / 2) (by omega) (by omega))

theorem isHeap_mem_le_root (l : List FPointDistance) (h : IsHeap l)
    (e : FPointDistance) (he : e ∈ l) :
    e.distanceSquared ≤ (l.getD 0 default).distanceSquared := by
  obtain ⟨j, hjl, hje⟩ := List.mem_iff_getElem.mp he
  have hroot := isHeap_root_max l h j hjl
  rwa [List.getD_eq_getElem l default hjl, hje] at hroot

theorem knnStep_inv (k : ℤ) (maxDsq : ℚ) (location : Vec3)
    (seen : List FBitmapPoint) (heap : List FPointDistance)
    (p : FBitmapPoint) (hk : 0 < k)
    (hinv : KnnInv k maxDsq location seen heap) :
    KnnInv k maxDsq location (seen ++ [p])
      (knnStep k maxDsq location heap p) := by
  obtain ⟨h1, h2, h3, rest, h4, h5⟩ := hinv
  unfold KnnInv knnStep
  by_cases hin : distSquared p.position location ≤ maxDsq
  · rw [if_pos hin]
    have hfilter : (seen ++ [p]).filter
        (fun q => decide (distSquared q.position location ≤ maxDsq)) =
        seen.filter
          (fun q => decide (distSquared q.position location ≤ maxDsq))
          ++ [p] := by
      simp [List.filter_append, hin]
    rw [hfilter]
    by_cases hlt : (heap.length : ℤ) < k
    · rw [if_pos hlt]
      have hrl : rest.length = 0 := by
        have hlen := h4.length_eq
        rw [List.length_append, List.length_map] at hlen
        omega
      have hrest : rest = [] := List.length_eq_zero.mp hrl
      subst hrest
      rw [List.append_nil] at h4
      have hxlen : heap.length <
          (heap ++ [(⟨p, distSquared p.position location⟩ :
            FPointDistance)]).length := by
        simp
      have hperm := heapifyUp_perm heap.length
        (heap ++ [(⟨p, distSquared p.position location⟩ :
          FPointDistance)]) hxlen
      refine ⟨heapifyUp_isHeap heap.length _ hxlen (upInv_push heap _ h1),
        ?_, ?_, [], ?_, ?_⟩
      · intro e he
        rcases List.mem_append.mp (hperm.subset he) with hE | hE
        · exact h2 e hE
        · rw [List.mem_singleton] at hE
          subst hE
          rfl
      · rw [hperm.length_eq]
        simp only [List.length_append, List.length_cons, List.length_nil]
        omega
      · rw [List.append_nil]
        refine (hperm.map _).trans ?_
        rw [List.map_append]
        exact h4.append_right _
      · intro e he q hq
        exact absurd hq (List.not_mem_nil q)
    · rw [if_neg hlt]
      by_cases hless : distSquared p.position location <
          (heap.getD 0 default).distanceSquared
      · rw [if_pos hless]
        have hne : 0 < heap.length := by omega
        cases heap with
        | nil => simp at hne
        | cons h0 t =>
          have hd0 : h0.distanceSquared =
              distSquared h0.point.position location :=
            h2 h0 (List.mem_cons_self h0 t)
          have hperm := heapify_perm
            ((h0 :: t).set 0 ⟨p, distSquared p.position location⟩)
          refine ⟨heapify_isHeap _, ?_, ?_, h0.point :: rest, ?_, ?_⟩
          · intro e he
            rcases List.mem_or_eq_of_mem_set (hperm.subset he) with hE | hE
            · exact h2 e hE
            · subst hE
              rfl
          · rw [hperm.length_eq]
            simp only [List.length_set, List.length_append, List.length_cons,
              List.length_nil]
            simp only [List.length_cons] at h3 hlt
            omega
          · refine ((hperm.map _).append_right _).trans ?_
            refine (List.Perm.cons p List.perm_middle).trans ?_
            refine (List.Perm.cons p h4).trans ?_
            exact (List.perm_append_singleton p _).symm
          · intro e he q hq
            rcases List.mem_or_eq_of_mem_set (hperm.subset he) with hE | hE
              <;> rcases List.mem_cons.mp hq with hQ | hQ
            · subst hQ
              rw [← hd0]
              exact isHeap_mem_le_root _ h1 e hE
            · exact h5 e hE q hQ
            · subst hE
              subst hQ
              rw [← hd0]
              exact le_of_lt hless
            · subst hE
              exact le_of_lt (lt_of_lt_of_le hless
                (h5 h0 (List.mem_cons_self h0 t) q hQ))
      · rw [if_neg hless]
        refine ⟨h1, h2, ?_, rest ++ [p], ?_, ?_⟩
        · simp only [List.length_append, List.length_cons, List.length_nil]
          omega
        · rw [← List.append_assoc]
          exact h4.append_right _
        · intro e he q hq
          rcases List.mem_append.mp hq with hQ | hQ
          · exact h5 e he q hQ
          · rw [List.mem_singleton] at hQ
            subst hQ
            exact le_trans (isHeap_mem_le_root heap h1 e he)
              (not_lt.mp hless)
  · rw [if_neg hin]
    have hfilter : (seen ++ [p]).filter
        (fun q => decide (distSquared q.position location ≤ maxDsq)) =
        seen.filter
          (fun q => decide (distSquared q.position location ≤ maxDsq)) := by
      simp [List.filter_append, hin]
    rw [hfilter]
    exact ⟨h1, h2, h3, rest, h4, h5⟩

theorem knnFold_inv (k : ℤ) (maxDsq : ℚ) (location : Vec3) (hk : 0 < k) :
    ∀ (cand seen : List FBitmapPoint) (heap : List FPointDistance),
    KnnInv k maxDsq location seen heap →
    KnnInv k maxDsq location (seen ++ cand)
      (cand.foldl (knnStep k maxDsq location) heap) := by
  intro cand
  induction cand with
  | nil =>
    intro seen heap h
    simpa using h
  | cons p cs ih =>
    intro seen heap h
    have h2 := ih (seen ++ [p]) (knnStep k maxDsq location heap p)
      (knnStep_inv k maxDsq location seen heap p hk h)
    rw [List.append_assoc] at h2
    exact h2

theorem knnInv_nil (k : ℤ) (maxDsq : ℚ) (location : Vec3) :
    KnnInv k maxDsq location [] [] := by
  refine ⟨?_, ?_, ?_, [], ?_, ?_⟩
  · intro j hj hjl hkp
    simp at hjl
  · intro e he
    simp at he
  · simp
  · simp
  · intro e he
    simp at he

theorem floor_offset_bound (cs R a b : ℚ) (hcs : 0 < cs) (hR : 0 ≤ R)
    (h : (a - b) ^ 2 ≤ R ^ 2) :
    ⌊b / cs⌋ - ⌈R / cs⌉ ≤ ⌊a / cs⌋ ∧ ⌊a / cs⌋ ≤ ⌊b / cs⌋ + ⌈R / cs⌉ := by
  have habs1 : a - b ≤ R := by nlinarith
  have habs2 : b - a ≤ R := by nlinarith
  have hceil : R / cs ≤ (⌈R / cs⌉ : ℚ) := Int.le_ceil _
  have hdiv1 : (a - b) / cs ≤ R / cs :=
    (div_le_div_iff_of_pos_right hcs).mpr habs1
  have hdiv2 : (b - a) / cs ≤ R / cs :=
    (div_le_div_iff_of_pos_right hcs).mpr habs2
  constructor
  · have h6 : b / cs + ((-⌈R / cs⌉ : ℤ) : ℚ) ≤ a / cs := by
      push_cast
      have h8 : b / cs - a / cs = (b - a) / cs := by ring
      linarith
    have h7 := Int.floor_le_floor h6
    rw [Int.floor_add_int] at h7
    omega
  · have h6 : a / cs ≤ b / cs + ((⌈R / cs⌉ : ℤ) : ℚ) := by
      have h8 : a / cs - b / cs = (a - b) / cs := by ring
      linarith
    have h7 := Int.floor_le_floor h6
    rw [Int.floor_add_int] at h7
    omega

theorem fracSq_bound (a cs : ℚ) (hcs : 0 < cs) :
    (a - ((⌊a / cs⌋ : ℚ) * cs + cs / 2)) ^ 2 ≤ cs ^ 2 / 4 := by
  have hf1 : (⌊a / cs⌋ : ℚ) * cs ≤ a := by
    have h := Int.floor_le (a / cs)
    have h2 := mul_le_mul_of_nonneg_right h (le_of_lt hcs)
    rwa [div_mul_cancel₀ _ (ne_of_gt hcs)] at h2
  have hf2 : a < (⌊a / cs⌋ : ℚ) * cs + cs := by
    have h := Int.lt_floor_add_one (a / cs)
    have h2 := mul_lt_mul_of_pos_right h hcs
    rwa [div_mul_cancel₀ _ (ne_of_gt hcs), add_mul, one_mul] at h2
  nlinarith [mul_nonneg (sub_nonneg.mpr hf1) (le_of_lt (sub_pos.mpr hf2))]

theorem sphereTest_arith (u1 u2 u3 v1 v2 v3 R cs : ℚ)
    (hS : u1 ^ 2 + u2 ^ 2 + u3 ^ 2 ≤ R * R)
    (hx : v1 ^ 2 ≤ cs ^ 2 / 4) (hy : v2 ^ 2 ≤ cs ^ 2 / 4)
    (hz : v3 ^ 2 ≤ cs ^ 2 / 4) :
    (u1 + v1) ^ 2 + (u2 + v2) ^ 2 + (u3 + v3) ^ 2 - R ^ 2 - 3 * cs ^ 2 / 4
      ≤ 0 ∨
    ((u1 + v1) ^ 2 + (u2 + v2) ^ 2 + (u3 + v3) ^ 2 - R ^ 2 - 3 * cs ^ 2 / 4)
      ^ 2 ≤ 3 * (R * cs) ^ 2 := by
  by_cases ha : (u1 + v1) ^ 2 + (u2 + v2) ^ 2 + (u3 + v3) ^ 2 - R ^ 2
      - 3 * cs ^ 2 / 4 ≤ 0
  · exact Or.inl ha
  · right
    push_neg at ha
    have hS2 : u1 ^ 2 + u2 ^ 2 + u3 ^ 2 ≤ R ^ 2 := by nlinarith [hS]
    have hT : v1 ^ 2 + v2 ^ 2 + v3 ^ 2 ≤ 3 * cs ^ 2 / 4 := by linarith
    have hT0 : 0 ≤ v1 ^ 2 + v2 ^ 2 + v3 ^ 2 := by positivity
    have hIP2 : (u1 * v1 + u2 * v2 + u3 * v3) ^ 2
        ≤ (u1 ^ 2 + u2 ^ 2 + u3 ^ 2) * (v1 ^ 2 + v2 ^ 2 + v3 ^ 2) := by
      nlinarith [sq_nonneg (u1 * v2 - u2 * v1),
        sq_nonneg (u1 * v3 - u3 * v1), sq_nonneg (u2 * v3 - u3 * v2)]
    have hST : (u1 ^ 2 + u2 ^ 2 + u3 ^ 2) * (v1 ^ 2 + v2 ^ 2 + v3 ^ 2)
        ≤ R ^ 2 * (3 * cs ^ 2 / 4) := mul_le_mul hS2 hT hT0 (by positivity)
    have hA2 : (u1 + v1) ^ 2 + (u2 + v2) ^ 2 + (u3 + v3) ^ 2 - R ^ 2
        - 3 * cs ^ 2 / 4 ≤ 2 * (u1 * v1 + u2 * v2 + u3 * v3) := by
      nlinarith [hS2, hT]
    have hAsq : ((u1 + v1) ^ 2 + (u2 + v2) ^ 2 + (u3 + v3) ^ 2 - R ^ 2
        - 3 * cs ^ 2 / 4) ^ 2
        ≤ (2 * (u1 * v1 + u2 * v2 + u3 * v3)) ^ 2 :=
      pow_le_pow_left₀ (le_of_lt ha) hA2 2
    linarith [hAsq, hIP2, hST]

theorem mem_intRange (lo hi x : ℤ) : x ∈ intRange lo hi ↔ lo ≤ x ∧ x ≤ hi := by
  unfold intRange
  rw [List.mem_map]
  constructor
  · rintro ⟨k, hk, rfl⟩
    rw [List.mem_range] at hk
    omega
  · rintro ⟨h1, h2⟩
    refine ⟨(x - lo).toNat, ?_, by omega⟩
    rw [List.mem_range]
    omega

theorem intRange_nodup (lo hi : ℤ) : (intRange lo hi).Nodup := by
  unfold intRange
  refine (List.nodup_range _).map ?_
  intro a b h
  dsimp only at h
  omega

theorem cellSphereTest_of_close (center p : Vec3) (R cs : ℚ)
    (hcs : 0 < cs) (_hR : 0 ≤ R)
    (hdist : distSquared p center ≤ R * R) :
    cellSphereTest center R cs (worldToGrid cs p) = true := by
  have hfx := fracSq_bound p.x cs hcs
  have hfy := fracSq_bound p.y cs hcs
  have hfz := fracSq_bound p.z cs hcs
  have hs : (center.x - p.x) ^ 2 + (center.y - p.y) ^ 2
      + (center.z - p.z) ^ 2 ≤ R * R := by
    unfold distSquared at hdist
    nlinarith [hdist]
  have harith := sphereTest_arith (center.x - p.x) (center.y - p.y)
    (center.z - p.z) (p.x - ((⌊p.x / cs⌋ : ℚ) * cs + cs / 2))
    (p.y - ((⌊p.y / cs⌋ : ℚ) * cs + cs / 2))
    (p.z - ((⌊p.z / cs⌋ : ℚ) * cs + cs / 2)) R cs hs hfx hfy hfz
  simp only [cellSphereTest, worldToGrid, cellCenter, gridToWorld, Vec3.add,
    distSquared]
  rw [Bool.or_eq_true, decide_eq_true_eq, decide_eq_true_eq]
  rcases harith with h | h
  · left
    linarith [h]
  · right
    linarith [h]

theorem mem_getCellsInSphere_of_close (center : Vec3) (R cs : ℚ)
    (p : Vec3) (hcs : 0 < cs) (hR : 0 ≤ R)
    (hdist : distSquared p center ≤ R * R) :
    worldToGrid cs p ∈ getCellsInSphere center R cs := by
  have hRR : distSquared p center ≤ R ^ 2 := by
    rw [pow_two]
    exact hdist
  have hx2 : (p.x - center.x) ^ 2 ≤ R ^ 2 := by
    unfold distSquared at hRR
    nlinarith [sq_nonneg (p.y - center.y), sq_nonneg (p.z - center.z)]
  have hy2 : (p.y - center.y) ^ 2 ≤ R ^ 2 := by
    unfold distSquared at hRR
    nlinarith [sq_nonneg (p.x - center.x), sq_nonneg (p.z - center.z)]
  have hz2 : (p.z - center.z) ^ 2 ≤ R ^ 2 := by
    unfold distSquared at hRR
    nlinarith [sq_nonneg (p.x - center.x), sq_nonneg (p.y - center.y)]
  have hbx := floor_offset_bound cs R p.x center.x hcs hR hx2
  have hby := floor_offset_bound cs R p.y center.y hcs hR hy2
  have hbz := floor_offset_bound cs R p.z center.z hcs hR hz2
  simp only [getCellsInSphere]
  rw [List.mem_flatMap]
  refine ⟨⌊p.x / cs⌋ - ⌊center.x / cs⌋, ?_, ?_⟩
  · rw [mem_intRange]
    omega
  · rw [List.mem_flatMap]
    refine ⟨⌊p.y / cs⌋ - ⌊center.y / cs⌋, ?_, ?_⟩
    · rw [mem_intRange]
      omega
    · rw [List.mem_filterMap]
      refine ⟨⌊p.z / cs⌋ - ⌊center.z / cs⌋, ?_, ?_⟩
      · rw [mem_intRange]
        omega
      · have hg : ((worldToGrid cs center).1
              + (⌊p.x / cs⌋ - ⌊center.x / cs⌋),
            (worldToGrid cs center).2.1
              + (⌊p.y / cs⌋ - ⌊center.y / cs⌋),
            (worldToGrid cs center).2.2
              + (⌊p.z / cs⌋ - ⌊center.z / cs⌋)) = worldToGrid cs p := by
          simp only [worldToGrid, Prod.mk.injEq]
          omega
        rw [hg, if_pos (cellSphereTest_of_close center p R cs hcs hR hdist)]

theorem getCellsInSphere_nodup (center : Vec3) (R cs : ℚ) :
    (getCellsInSphere center R cs).Nodup := by
  simp only [getCellsInSphere]
  rw [List.nodup_flatMap]
  constructor
  · intro dx _
    rw [List.nodup_flatMap]
    constructor
    · intro dy _
      refine (intRange_nodup _ _).filterMap ?_
      intro a a' b hb hb'
      split at hb
      · split at hb'
        · rw [Option.mem_some_iff] at hb hb'
          rw [← hb] at hb'
          simp only [Prod.mk.injEq] at hb'
          omega
        · simp at hb'
      · simp at hb
    · refine List.Pairwise.imp ?_ (intRange_nodup _ _)
      intro dy dy' hne b hb hb'
      rw [List.mem_filterMap] at hb hb'
      obtain ⟨z, _, hz⟩ := hb
      obtain ⟨z', _, hz'⟩ := hb'
      split at hz
      · split at hz'
        · rw [Option.some.injEq] at hz hz'
          rw [← hz] at hz'
          simp only [Prod.mk.injEq] at hz'
          omega
        · simp at hz'
      · simp at hz
  · refine List.Pairwise.imp ?_ (intRange_nodup _ _)
    intro dx dx' hne b hb hb'
    rw [List.mem_flatMap] at hb hb'
    obtain ⟨dy, _, hb⟩ := hb
    obtain ⟨dy', _, hb'⟩ := hb'
    rw [List.mem_filterMap] at hb hb'
    obtain ⟨z, _, hz⟩ := hb
    obtain ⟨z', _, hz'⟩ := hb'
    split at hz
    · split at hz'
      · rw [Option.some.injEq] at hz hz'
        rw [← hz] at hz'
        simp only [Prod.mk.injEq] at hz'
        omega
      · simp at hz'
    · simp at hz

theorem filter_or_partition {α : Type} (P Q : α → Bool)
    (hdisj : ∀ x, ¬(P x = true ∧ Q x = true)) :
    ∀ l : List α,
      (l.filter P ++ l.filter Q).Perm (l.filter (fun x => P x || Q x)) := by
  intro l
  induction l with
  | nil => exact List.Perm.refl _
  | cons a t ih =>
    rcases Bool.eq_false_or_eq_true (P a) with hp | hp
    · have hq : Q a = false := by
        rcases Bool.eq_false_or_eq_true (Q a) with hq | hq
        · exact absurd ⟨hp, hq⟩ (hdisj a)
        · exact hq
      simp [List.filter_cons, hp, hq]
      exact ih
    · rcases Bool.eq_false_or_eq_true (Q a) with hq | hq
      · simp [List.filter_cons, hp, hq]
        exact List.perm_middle.trans (ih.cons a)
      · simp [List.filter_cons, hp, hq]
        exact ih

theorem flatMap_cellPoints_perm (pts : List FBitmapPoint) (cs : ℚ) :
    ∀ cells : List (ℤ × ℤ × ℤ), cells.Nodup →
      (cells.flatMap (cellPoints pts cs)).Perm
        (pts.filter (fun p =>
          decide (worldToGrid cs p.position ∈ cells))) := by
  intro cells
  induction cells with
  | nil =>
    intro _
    simp [cellPoints]
  | cons c t ih =>
    intro hnd
    rw [List.nodup_cons] at hnd
    rw [List.flatMap_cons]
    refine ((ih hnd.2).append_left (cellPoints pts cs c)).trans ?_
    have hdisj : ∀ x : FBitmapPoint,
        ¬((decide (worldToGrid cs x.position = c)) = true ∧
          (decide (worldToGrid cs x.position ∈ t)) = true) := by
      intro x ⟨h1, h2⟩
      rw [decide_eq_true_eq] at h1 h2
      exact hnd.1 (h1 ▸ h2)
    refine (filter_or_partition _ _ hdisj pts).trans ?_
    have hpt : ∀ x ∈ pts, (decide (worldToGrid cs x.position = c) ||
        decide (worldToGrid cs x.position ∈ t)) =
        decide (worldToGrid cs x.position ∈ c :: t) := by
      intro x _
      simp [List.mem_cons]
    rw [List.filter_congr hpt]

theorem sortByDistance_perm (location : Vec3) (l : List FBitmapPoint) :
    (sortByDistance location l).Perm l :=
  List.mergeSort_perm l _

theorem sortByDistance_sorted (location : Vec3) (l : List FBitmapPoint) :
    (sortByDistance location l).Pairwise (fun a b =>
      distSquared a.position location ≤ distSquared b.position location) := by
  have htrans : ∀ (a b c : FBitmapPoint),
      (fun a b : FBitmapPoint => decide (distSquared a.position location ≤
        distSquared b.position location)) a b = true →
      (fun a b : FBitmapPoint => decide (distSquared a.position location ≤
        distSquared b.position location)) b c = true →
      (fun a b : FBitmapPoint => decide (distSquared a.position location ≤
        distSquared b.position location)) a c = true := by
    intro a b c hab hbc
    simp only [decide_eq_true_eq] at hab hbc ⊢
    exact le_trans hab hbc
  have htotal : ∀ (a b : FBitmapPoint),
      ((fun a b : FBitmapPoint => decide (distSquared a.position location ≤
        distSquared b.position location)) a b ||
      (fun a b : FBitmapPoint => decide (distSquared a.position location ≤
        distSquared b.position location)) b a) = true := by
    intro a b
    simp only [Bool.or_eq_true, decide_eq_true_eq]
    exact le_total _ _
  have h := List.sorted_mergeSort htrans htotal l
  refine List.Pairwise.imp ?_ h
  intro a b hab
  simpa using hab

theorem filter_absorb {α : Type} (p q : α → Bool)
    (himp : ∀ x, q x = true → p x = true) :
    ∀ l : List α, (l.filter p).filter q = l.filter q := by
  intro l
  induction l with
  | nil => rfl
  | cons a t ih =>
    rcases Bool.eq_false_or_eq_true (q a) with hq | hq
    · simp [List.filter_cons, hq, himp a hq, ih]
    · rcases Bool.eq_false_or_eq_true (p a) with hp | hp
      · simp [List.filter_cons, hq, hp, ih]
      · simp [List.filter_cons, hq, hp, ih]

/-- C3: for every point list held in the spatial index, query location,
`K > 0` and `MaxDistance ≥ 0` (with a positive cell size),
`FindKNearestPoints` returns exactly `min K n` points, where `n` is the
number of indexed points within `MaxDistance` of the location; every
returned point lies within `MaxDistance`, the result is sorted in ascending
distance order, and no closer indexed point is omitted: the returned points
together with some leftover list form a permutation of all in-range indexed
points, every returned point being at least as close as every leftover. -/
theorem findKNearestPoints_correct (pts : List FBitmapPoint) (cellSize : ℚ)
    (location : Vec3) (k : ℤ) (maxDistance : ℚ)
    (hk : 0 < k) (hcs : 0 < cellSize) (hmd : 0 ≤ maxDistance) :
    (findKNearestPoints pts cellSize location k maxDistance).length =
      min k.toNat (pts.filter (fun p =>
        decide (distSquared p.position location ≤
          maxDistance * maxDistance))).length ∧
    (∀ q ∈ findKNearestPoints pts cellSize location k maxDistance,
      distSquared q.position location ≤ maxDistance * maxDistance) ∧
    (findKNearestPoints pts cellSize location k maxDistance).Pairwise
      (fun a b => distSquared a.position location ≤
        distSquared b.position location) ∧
    ∃ rest, ((findKNearestPoints pts cellSize location k maxDistance)
        ++ rest).Perm
      (pts.filter (fun p => decide (distSquared p.position location ≤
        maxDistance * maxDistance))) ∧
      ∀ a ∈ findKNearestPoints pts cellSize location k maxDistance,
        ∀ b ∈ rest, distSquared a.position location ≤
          distSquared b.position location := by
  have hres : findKNearestPoints pts cellSize location k maxDistance =
      sortByDistance location
        ((((getCellsInSphere location maxDistance cellSize).flatMap
          (cellPoints pts cellSize)).foldl
            (knnStep k (maxDistance * maxDistance) location) []).map
          (fun e => e.point)) := by
    unfold findKNearestPoints
    rw [if_neg (show ¬k ≤ 0 by omega)]
  have hInv := knnFold_inv k (maxDistance * maxDistance) location hk
    ((getCellsInSphere location maxDistance cellSize).flatMap
      (cellPoints pts cellSize)) [] []
    (knnInv_nil k (maxDistance * maxDistance) location)
  rw [List.nil_append] at hInv
  obtain ⟨hHeap, hDs, hLen, rest, hPerm, hBound⟩ := hInv
  have himp : ∀ x : FBitmapPoint,
      decide (distSquared x.position location ≤
        maxDistance * maxDistance) = true →
      decide (worldToGrid cellSize x.position ∈
        getCellsInSphere location maxDistance cellSize) = true := by
    intro x hx
    rw [decide_eq_true_eq] at hx
    exact decide_eq_true (mem_getCellsInSphere_of_close location maxDistance
      cellSize x.position hcs hmd hx)
  have hWperm : (((getCellsInSphere location maxDistance cellSize).flatMap
        (cellPoints pts cellSize)).filter (fun p =>
        decide (distSquared p.position location ≤
          maxDistance * maxDistance))).Perm
      (pts.filter (fun p => decide (distSquared p.position location ≤
        maxDistance * maxDistance))) := by
    have h1 := (flatMap_cellPoints_perm pts cellSize _
      (getCellsInSphere_nodup location maxDistance cellSize)).filter
      (fun p => decide (distSquared p.position location ≤
        maxDistance * maxDistance))
    rwa [filter_absorb _ _ himp pts] at h1
  have hsp := sortByDistance_perm location
    ((((getCellsInSphere location maxDistance cellSize).flatMap
      (cellPoints pts cellSize)).foldl
        (knnStep k (maxDistance * maxDistance) location) []).map
      (fun e => e.point))
  refine ⟨?_, ?_, ?_, rest, ?_, ?_⟩
  · rw [hres, hsp.length_eq, List.length_map, hLen, hWperm.length_eq]
  · intro q hq
    rw [hres] at hq
    have hq2 := List.mem_append_left rest (hsp.subset hq)
    have hq3 := List.of_mem_filter (hPerm.subset hq2)
    rwa [decide_eq_true_eq] at hq3
  · rw [hres]
    exact sortByDistance_sorted location _
  · rw [hres]
    exact ((hsp.append_right rest).trans hPerm).trans hWperm
  · intro a ha b hb
    rw [hres] at ha
    have ha2 := hsp.subset ha
    rw [List.mem_map] at ha2
    obtain ⟨e, he, rfl⟩ := ha2
    have h1 := hBound e he b hb
    rwa [hDs e he] at h1

theorem findKNearestPoints_correct_check :
    (0 : ℤ) < 2 ∧ (0 : ℚ) < 1 ∧ (0 : ℚ) ≤ 5 ∧
    ((findKNearestPoints exPts3 1 ⟨0, 0, 0⟩ 2 5).length =
      min (2 : ℤ).toNat (exPts3.filter (fun p =>
        decide (distSquared p.position ⟨0, 0, 0⟩ ≤ 5 * 5))).length ∧
    (∀ q ∈ findKNearestPoints exPts3 1 ⟨0, 0, 0⟩ 2 5,
      distSquared q.position ⟨0, 0, 0⟩ ≤ 5 * 5) ∧
    (findKNearestPoints exPts3 1 ⟨0, 0, 0⟩ 2 5).Pairwise
      (fun a b => distSquared a.position ⟨0, 0, 0⟩ ≤
        distSquared b.position ⟨0, 0, 0⟩) ∧
    ∃ rest, ((findKNearestPoints exPts3 1 ⟨0, 0, 0⟩ 2 5) ++ rest).Perm
      (exPts3.filter (fun p => decide (distSquared p.position ⟨0, 0, 0⟩ ≤
        5 * 5))) ∧
      ∀ a ∈ findKNearestPoints exPts3 1 ⟨0, 0, 0⟩ 2 5,
        ∀ b ∈ rest, distSquared a.position ⟨0, 0, 0⟩ ≤
          distSquared b.position ⟨0, 0, 0⟩) :=
  ⟨by decide, by decide, by decide,
    findKNearestPoints_correct exPts3 1 ⟨0, 0, 0⟩ 2 5 (by decide) (by decide)
      (by decide)⟩
